import Mathlib

/-!
Shallow embedding of the fixed-capacity multi-line text editor of
`notecalc-lib/src/editor.rs` (struct `Editor` together with `Pos`,
`Selection`, `InputKey`, `InputModifiers` and `JumpMode`).

The Rust code stores the text in a single flat `Vec<char>` `canvas` of
`line_count * max_line_len` cells, addressed as `row * max_line_len + col`.
Every canvas operation of the source reads and writes inside row-aligned
chunks of size `max_line_len` (the stride), so the embedding represents the
canvas as a `List (List Char)` in which each entry is one stride-sized chunk
of the flat vector; the per-row index arithmetic of the source
(`get_char_pos`, `copy_within` ranges, `splice` on stride boundaries) is
translated chunkwise.  Machine integers (`usize`) become `Nat`; the source
relies on the subtractions it performs being in range (out-of-range indices
panic in Rust), which the theorems mirror with explicit bound hypotheses.
-/

/-- `Pos { row, col }` of editor.rs. -/
structure Pos where
  row : Nat
  column : Nat
deriving DecidableEq, Repr

/-- `Pos::from_row_column`. -/
def Pos.from_row_column (row_index column_index : Nat) : Pos :=
  { row := row_index, column := column_index }

/-- `Pos::with_column`. -/
def Pos.with_column (p : Pos) (col : Nat) : Pos :=
  { p with column := col }

/-- `Selection { start, end }` of editor.rs; the Rust field `end` is a Lean
keyword and is called `endp` here. -/
structure Selection where
  start : Pos
  endp : Option Pos
deriving DecidableEq, Repr

/-- `Selection::from_pos`. -/
def Selection.from_pos (pos : Pos) : Selection :=
  { start := pos, endp := none }

/-- `Selection::single`. -/
def Selection.single (row_index column_index : Nat) : Selection :=
  { start := { row := row_index, column := column_index }, endp := none }

/-- `Selection::range`: collapses to a caret when the two endpoints agree. -/
def Selection.range (s e : Pos) : Selection :=
  { start := s, endp := if s = e then none else some e }

/-- `Selection::is_range`. -/
def Selection.is_range (s : Selection) : Bool :=
  s.endp.isSome

/-- `Selection::get_first`: the endpoint with the smaller `row * 1024 + column`
rank (the stride 1024 is hardcoded in the source). -/
def Selection.get_first (s : Selection) : Pos :=
  match s.endp with
  | some e =>
    let end_index := e.row * 1024 + e.column
    let start_index := s.start.row * 1024 + s.start.column
    if end_index < start_index then e else s.start
  | none => s.start

/-- `Selection::get_second`: the endpoint with the larger rank. -/
def Selection.get_second (s : Selection) : Pos :=
  match s.endp with
  | some e =>
    let end_index := e.row * 1024 + e.column
    let start_index := s.start.row * 1024 + s.start.column
    if end_index > start_index then e else s.start
  | none => s.start

/-- `Selection::extend`. -/
def Selection.extend (s : Selection) (new_end : Pos) : Selection :=
  if s.start = new_end then Selection.single new_end.row new_end.column
  else Selection.range s.start new_end

/-- `Selection::get_cursor_pos`. -/
def Selection.get_cursor_pos (s : Selection) : Pos :=
  s.endp.getD s.start

/-- `enum JumpMode` of editor.rs. -/
inductive JumpMode where
  | IgnoreWhitespaces
  | ConsiderWhitespaces
  | BlockOnWhitespace
deriving DecidableEq, Repr

/-- `InputModifiers` of editor.rs. -/
structure InputModifiers where
  shift : Bool
  ctrl : Bool
  alt : Bool
deriving DecidableEq, Repr

/-- `InputModifiers::none`. -/
def InputModifiers.none : InputModifiers :=
  { shift := false, ctrl := false, alt := false }

/-- `InputModifiers::ctrl`. -/
def InputModifiers.ctrl_only : InputModifiers :=
  { shift := false, ctrl := true, alt := false }

/-- `InputModifiers::shift`. -/
def InputModifiers.shift_only : InputModifiers :=
  { shift := true, ctrl := false, alt := false }

/-- `enum InputKey` of editor.rs; the borrowed `Text(&str)` payload is
represented as the codepoint list it denotes. -/
inductive InputKey where
  | Left
  | Right
  | Up
  | Down
  | Home
  | End
  | Enter
  | Backspace
  | Del
  | Character (c : Char)
  | Text (s : List Char)
deriving DecidableEq, Repr

/-- `char::is_alphanumeric` restricted to the ASCII range (ASCII letters and
digits); the Rust method is Unicode-aware but agrees with this on every ASCII
character, and only ASCII content is ever evaluated in this development. -/
def rust_is_alphanumeric (c : Char) : Bool :=
  c.isAlphanum

/-- `char::is_ascii_whitespace`: space, tab, newline, form feed, carriage
return. -/
def rust_is_ascii_whitespace (c : Char) : Bool :=
  c = ' ' || c = '\t' || c = '\n' || c = Char.ofNat 12 || c = '\r'

/-- `slice::copy_within(src_from..src_to, dst)` on a char row: memmove the
range `[src_from, src_to)` to start at `dst`, reading from the original. -/
def copy_within (l : List Char) (src_from src_to dst : Nat) : List Char :=
  l.take dst ++ ((l.drop src_from).take (src_to - src_from))
    ++ l.drop (dst + (src_to - src_from))

/-- The `Editor` struct of editor.rs.  `canvas` holds the flat
`line_count * max_line_len` char vector chunked into its stride-aligned rows
(see the module comment). -/
structure Editor where
  selection : Selection
  last_column_index : Nat
  next_blink_at : Nat
  show_cursor : Bool
  max_line_len : Nat
  line_lens : List Nat
  canvas : List (List Char)
deriving DecidableEq, Repr

/-- The all-zeros stride chunk `std::iter::repeat(0 as char).take(max_line_len)`
that `push_line` and `insert_line_at` append. -/
def zero_row (max_line_len : Nat) : List Char :=
  List.replicate max_line_len (Char.ofNat 0)

/-- `Editor::push_line`. -/
def Editor.push_line (e : Editor) : Editor :=
  { e with
    canvas := e.canvas ++ [zero_row e.max_line_len]
    line_lens := e.line_lens ++ [0] }

/-- `Editor::new`: empty canvas, then one `push_line`. -/
def Editor.new (max_len : Nat) : Editor :=
  Editor.push_line
    { selection := Selection.single 0 0
      last_column_index := 0
      next_blink_at := 0
      show_cursor := false
      max_line_len := max_len
      line_lens := []
      canvas := [] }

/-- `Editor::insert_line_at`: `splice` of a zero chunk at the stride boundary
`max_line_len * at`, and `line_lens.insert(at, 0)`. -/
def Editor.insert_line_at (e : Editor) (i : Nat) : Editor :=
  { e with
    canvas := e.canvas.take i ++ [zero_row e.max_line_len] ++ e.canvas.drop i
    line_lens := e.line_lens.take i ++ [0] ++ e.line_lens.drop i }

/-- `Editor::remove_line_at`: `splice`-out of the chunk `[max_line_len * at,
max_line_len * (at+1))`, and `line_lens.remove(at)`. -/
def Editor.remove_line_at (e : Editor) (i : Nat) : Editor :=
  { e with
    canvas := e.canvas.take i ++ e.canvas.drop (i + 1)
    line_lens := e.line_lens.take i ++ e.line_lens.drop (i + 1) }

/-- `Editor::line_count`. -/
def Editor.line_count (e : Editor) : Nat :=
  e.line_lens.length

/-- `Editor::line_len` (`self.line_lens[row_i]`; out-of-bounds panics in Rust,
defaulted to 0 here and guarded by bound hypotheses in the theorems). -/
def Editor.line_len (e : Editor) (row_i : Nat) : Nat :=
  e.line_lens.getD row_i 0

/-- `Editor::get_line_chars`: the stride chunk of one row. -/
def Editor.get_line_chars (e : Editor) (row_index : Nat) : List Char :=
  e.canvas.getD row_index []

/-- `push_line` repeated; `set_char` runs it `for _ in current..=row`. -/
def Editor.push_lines (e : Editor) : Nat → Editor
  | 0 => e
  | k + 1 => (e.push_line).push_lines k

/-- `Editor::set_char`: appends empty rows up to and including `row_index`,
then writes the cell `row_index * max_line_len + column_index`. -/
def Editor.set_char (e : Editor) (row_index column_index : Nat) (ch : Char) :
    Editor :=
  let e1 := e.push_lines (row_index + 1 - e.line_count)
  { e1 with
    canvas :=
      e1.canvas.set row_index ((e1.canvas.getD row_index []).set column_index ch) }

/-- `Editor::insert_char`: fails (no mutation) at capacity, else shifts
`[col, len)` right by one inside the row chunk and writes `ch`. -/
def Editor.insert_char (e : Editor) (row_index column_index : Nat) (ch : Char) :
    Editor × Bool :=
  if e.line_lens.getD row_index 0 = e.max_line_len then (e, false)
  else
    let len := e.line_lens.getD row_index 0
    let r := e.canvas.getD row_index []
    let r1 := (copy_within r column_index len (column_index + 1)).set column_index ch
    ({ e with
        canvas := e.canvas.set row_index r1
        line_lens := e.line_lens.set row_index (len + 1) },
      true)

/-- `Editor::remove_char`: shifts `[col+1, len)` left by one inside the row
chunk and decrements the length; always returns `true`. -/
def Editor.remove_char (e : Editor) (row_index column_index : Nat) :
    Editor × Bool :=
  let len := e.line_lens.getD row_index 0
  let r := e.canvas.getD row_index []
  let r1 := copy_within r (column_index + 1) len column_index
  ({ e with
      canvas := e.canvas.set row_index r1
      line_lens := e.line_lens.set row_index (len - 1) },
    true)

/-- `Editor::clear`: zeroes every row length, keeps the canvas. -/
def Editor.clear (e : Editor) : Editor :=
  { e with line_lens := e.line_lens.map (fun _ => 0) }

/-- `Editor::lines`: the visible, length-bounded slice of every row. -/
def Editor.lines (e : Editor) : List (List Char) :=
  (e.canvas.zip e.line_lens).map (fun p => p.1.take p.2)

/-- `Editor::get_content`: every visible row followed by `'\n'`. -/
def Editor.get_content (e : Editor) : List Char :=
  (e.lines.map (fun line => line ++ ['\n'])).flatten

/-- `Editor::get_selection`. -/
def Editor.get_selection (e : Editor) : Selection :=
  e.selection

/-- `Editor::set_cursor_pos`. -/
def Editor.set_cursor_pos (e : Editor) (row_index column_index : Nat) : Editor :=
  { e with
    selection := Selection.single row_index column_index
    last_column_index := column_index }

/-- `Editor::set_selection`. -/
def Editor.set_selection (e : Editor) (s en : Pos) : Editor :=
  let sel := Selection.range s en
  { e with
    selection := sel
    last_column_index := sel.get_cursor_pos.column }

/-- `Editor::handle_click`: clamps the row to the last row and the column to
the row length, then sets a caret. -/
def Editor.handle_click (e : Editor) (x y : Nat) : Editor :=
  let line_count := e.line_count
  let y1 := if y ≥ line_count then line_count - 1 else y
  let col := min x (e.line_len y1)
  { e with selection := Selection.from_pos (Pos.from_row_column y1 col) }

/-- `Editor::handle_drag`: clamps like `handle_click` and extends the
selection. -/
def Editor.handle_drag (e : Editor) (x y : Nat) : Editor :=
  let y1 := if y ≥ e.line_count then e.line_count - 1 else y
  let col := min x (e.line_len y1)
  { e with selection := e.selection.extend (Pos.from_row_column y1 col) }

/-- `Editor::handle_tick`: toggles the cursor and schedules the next blink
500ms later when `now` has reached `next_blink_at`. -/
def Editor.handle_tick (e : Editor) (now : Nat) : Editor × Bool :=
  if now ≥ e.next_blink_at then
    ({ e with show_cursor := !e.show_cursor, next_blink_at := now + 500 }, true)
  else (e, false)

/-- Inner backward run-consumption loop of `jump_word_backward`:
`while col > 0 && p(line[col-1]) { col -= 1 }`. -/
def skip_back (p : Char → Bool) (line : List Char) : Nat → Nat
  | 0 => 0
  | col + 1 => if p (line.getD col (Char.ofNat 0)) then skip_back p line col else col + 1

/-- Outer loop of `Editor::jump_word_backward` on one row chunk: classify the
character before the cursor, consume a word run / one quote / a symbol run, or
treat whitespace per the mode. -/
def jump_word_backward_loop (line : List Char) (mode : JumpMode) : Nat → Nat
  | 0 => 0
  | col + 1 =>
    let c := line.getD col (Char.ofNat 0)
    if rust_is_alphanumeric c || c = '_' then
      skip_back (fun ch => rust_is_alphanumeric ch || ch = '_') line col
    else if c = '\"' then col
    else if !(rust_is_ascii_whitespace c) then
      skip_back
        (fun ch =>
          !(rust_is_alphanumeric ch || ch = '_' || ch = '\"'
            || rust_is_ascii_whitespace ch))
        line col
    else
      match mode with
      | JumpMode.IgnoreWhitespaces => jump_word_backward_loop line mode col
      | JumpMode.ConsiderWhitespaces => skip_back rust_is_ascii_whitespace line col
      | JumpMode.BlockOnWhitespace => col + 1

/-- `Editor::jump_word_backward`. -/
def Editor.jump_word_backward (e : Editor) (cur_pos : Pos) (mode : JumpMode) :
    Nat :=
  jump_word_backward_loop (e.get_line_chars cur_pos.row) mode cur_pos.column

/-- Inner forward run-consumption loop of `jump_word_forward`:
`while col < len && p(line[col]) { col += 1 }`, driven by fuel that the caller
sizes as `len - col` so it never runs dry before the loop condition fails. -/
def skip_fwd (p : Char → Bool) (line : List Char) (len : Nat) : Nat → Nat → Nat
  | 0, col => col
  | fuel + 1, col =>
    if col < len && p (line.getD col (Char.ofNat 0)) then
      skip_fwd p line len fuel (col + 1)
    else col

/-- Outer loop of `Editor::jump_word_forward`, fueled like `skip_fwd`. -/
def jump_word_forward_loop (line : List Char) (len : Nat) (mode : JumpMode) :
    Nat → Nat → Nat
  | 0, col => col
  | fuel + 1, col =>
    if col < len then
      let c := line.getD col (Char.ofNat 0)
      if rust_is_alphanumeric c || c = '_' then
        skip_fwd (fun ch => rust_is_alphanumeric ch || ch = '_') line len fuel
          (col + 1)
      else if c = '\"' then col + 1
      else if !(rust_is_ascii_whitespace c) then
        skip_fwd
          (fun ch =>
            !(rust_is_alphanumeric ch || ch = '_' || ch = '\"'
              || rust_is_ascii_whitespace ch))
          line len fuel (col + 1)
      else
        match mode with
        | JumpMode.IgnoreWhitespaces =>
          jump_word_forward_loop line len mode fuel (col + 1)
        | JumpMode.ConsiderWhitespaces =>
          skip_fwd rust_is_ascii_whitespace line len fuel (col + 1)
        | JumpMode.BlockOnWhitespace => col
    else col

/-- `Editor::jump_word_forward`. -/
def Editor.jump_word_forward (e : Editor) (cur_pos : Pos) (mode : JumpMode) :
    Nat :=
  let len := e.line_lens.getD cur_pos.row 0
  jump_word_forward_loop (e.get_line_chars cur_pos.row) len mode
    (len - cur_pos.column) cur_pos.column

/-- The character loop of `Editor::insert_at`: `'\r'` is skipped, `'\n'` seals
the current row and opens a fresh one, reaching `max_line_len` wraps onto a
fresh row, anything else is written via `set_char`; at the end the current
row's length is sealed and the final position returned. -/
def Editor.insert_at_loop (e : Editor) : List Char → Nat → Nat → Editor × Pos
  | [], row, col =>
    ({ e with line_lens := e.line_lens.set row col }, Pos.from_row_column row col)
  | ch :: rest, row, col =>
    if ch = '\r' then e.insert_at_loop rest row col
    else if ch = '\n' then
      let e1 := { e with line_lens := e.line_lens.set row col }
      let e2 := e1.insert_line_at (row + 1)
      e2.insert_at_loop rest (row + 1) 0
    else if col = e.max_line_len then
      let e1 := { e with line_lens := e.line_lens.set row col }
      let e2 := e1.insert_line_at (row + 1)
      (e2.set_char (row + 1) 0 ch).insert_at_loop rest (row + 1) 1
    else
      (e.set_char row col ch).insert_at_loop rest row (col + 1)

/-- `Editor::insert_at`. -/
def Editor.insert_at (e : Editor) (str : List Char) (row_index col : Nat) :
    Editor × Pos :=
  e.insert_at_loop str row_index col

/-- `Editor::set_content`: clear, caret to the origin, bulk insert. -/
def Editor.set_content (e : Editor) (text : List Char) : Editor :=
  (((e.clear).set_cursor_pos 0 0).insert_at text 0 0).1

/-- `Editor::split_line`: fresh row below, move `[split_at, len)` to its
column 0, seal both lengths. -/
def Editor.split_line (e : Editor) (row_index split_at : Nat) : Editor :=
  let e1 := e.insert_line_at (row_index + 1)
  let len := e1.line_lens.getD row_index 0
  let r := e1.canvas.getD row_index []
  let seg := (r.drop split_at).take (len - split_at)
  let newr := e1.canvas.getD (row_index + 1) []
  let newr1 := seg ++ newr.drop seg.length
  { e1 with
    canvas := e1.canvas.set (row_index + 1) newr1
    line_lens :=
      ((e1.line_lens.set (row_index + 1) (len - split_at)).set row_index split_at) }

/-- `Editor::merge_with_next_row`: fails (no mutation) when the two current
row lengths together exceed the capacity; otherwise copies
`[second_row_col, len)` of row `row_index + 1` to column `first_row_col` of
row `row_index`, seals the length and removes the lower row. -/
def Editor.merge_with_next_row (e : Editor)
    (row_index first_row_col second_row_col : Nat) : Editor × Bool :=
  if e.line_lens.getD row_index 0 + e.line_lens.getD (row_index + 1) 0 >
      e.max_line_len then
    (e, false)
  else
    let len2 := e.line_lens.getD (row_index + 1) 0
    let seg := ((e.canvas.getD (row_index + 1) []).drop second_row_col).take
      (len2 - second_row_col)
    let r1 := e.canvas.getD row_index []
    let r2 := r1.take first_row_col ++ seg ++ r1.drop (first_row_col + seg.length)
    let e1 :=
      { e with
        canvas := e.canvas.set row_index r2
        line_lens :=
          e.line_lens.set row_index (first_row_col + (len2 - second_row_col)) }
    (e1.remove_line_at (row_index + 1), true)

/-- The interior-row loop of `remove_selection`:
`for _ in first.row+1..second.row { remove_line_at(first.row+1) }`. -/
def Editor.remove_lines_at (e : Editor) (i : Nat) : Nat → Editor
  | 0 => e
  | k + 1 => (e.remove_line_at i).remove_lines_at i k

/-- `Editor::remove_selection` (its `bool` result is always `true`; the inner
`merge_with_next_row` result is discarded by the source). -/
def Editor.remove_selection (e : Editor) (first second : Pos) : Editor × Bool :=
  if second.row > first.row then
    let e1 := e.remove_lines_at (first.row + 1) (second.row - (first.row + 1))
    ((e1.merge_with_next_row first.row first.column second.column).1, true)
  else
    let r := e.canvas.getD first.row []
    let r1 := copy_within r second.column r.length first.column
    ({ e with
        canvas := e.canvas.set first.row r1
        line_lens :=
          e.line_lens.set first.row
            (e.line_lens.getD first.row 0 - (second.column - first.column)) },
      true)

/-- `Editor::handle_input`, the input state machine of editor.rs (its
`FirstModifiedRowIndex(0)` result, a constant redraw hint, is dropped).  Each
arm mirrors the corresponding `match input` arm of the source. -/
def Editor.handle_input (e : Editor) (input : InputKey)
    (modifiers : InputModifiers) : Editor :=
  let cur_pos := e.selection.get_cursor_pos
  match input with
  | InputKey.Home =>
    let new_pos := cur_pos.with_column 0
    let sel :=
      if modifiers.shift then e.selection.extend new_pos
      else Selection.from_pos new_pos
    { e with selection := sel, last_column_index := sel.get_cursor_pos.column }
  | InputKey.End =>
    let new_pos := cur_pos.with_column (e.line_lens.getD cur_pos.row 0)
    let sel :=
      if modifiers.shift then e.selection.extend new_pos
      else Selection.from_pos new_pos
    { e with selection := sel, last_column_index := sel.get_cursor_pos.column }
  | InputKey.Right =>
    let new_pos :=
      if cur_pos.column + 1 > e.line_lens.getD cur_pos.row 0 then
        if cur_pos.row + 1 < e.line_count then
          Pos.from_row_column (cur_pos.row + 1) 0
        else cur_pos
      else
        let col :=
          if modifiers.ctrl then
            e.jump_word_forward cur_pos JumpMode.IgnoreWhitespaces
          else cur_pos.column + 1
        cur_pos.with_column col
    let sel :=
      if modifiers.shift then e.selection.extend new_pos
      else if e.selection.endp.isSome then Selection.from_pos e.selection.get_second
      else Selection.from_pos new_pos
    { e with selection := sel, last_column_index := sel.get_cursor_pos.column }
  | InputKey.Left =>
    let new_pos :=
      if cur_pos.column = 0 then
        if cur_pos.row ≥ 1 then
          Pos.from_row_column (cur_pos.row - 1)
            (e.line_lens.getD (cur_pos.row - 1) 0)
        else cur_pos
      else
        let col :=
          if modifiers.ctrl then
            e.jump_word_backward cur_pos JumpMode.IgnoreWhitespaces
          else cur_pos.column - 1
        cur_pos.with_column col
    let sel :=
      if modifiers.shift then e.selection.extend new_pos
      else if e.selection.endp.isSome then Selection.from_pos e.selection.get_first
      else Selection.from_pos new_pos
    { e with selection := sel, last_column_index := sel.get_cursor_pos.column }
  | InputKey.Up =>
    let new_pos :=
      if cur_pos.row = 0 then cur_pos.with_column 0
      else
        Pos.from_row_column (cur_pos.row - 1)
          (min e.last_column_index (e.line_lens.getD (cur_pos.row - 1) 0))
    { e with
      selection :=
        if modifiers.shift then e.selection.extend new_pos
        else Selection.from_pos new_pos }
  | InputKey.Down =>
    let new_pos :=
      if cur_pos.row = e.line_count - 1 then
        cur_pos.with_column (e.line_lens.getD cur_pos.row 0)
      else
        Pos.from_row_column (cur_pos.row + 1)
          (min e.last_column_index (e.line_lens.getD (cur_pos.row + 1) 0))
    { e with
      selection :=
        if modifiers.shift then e.selection.extend new_pos
        else Selection.from_pos new_pos }
  | InputKey.Del =>
    match e.selection.endp with
    | some _ =>
      let first := e.selection.get_first
      let second := e.selection.get_second
      let e1 := (e.remove_selection first second).1
      { e1 with selection := Selection.from_pos first }
    | none =>
      if cur_pos.column = e.line_lens.getD cur_pos.row 0 then
        if cur_pos.row < e.line_count - 1 then
          (e.merge_with_next_row cur_pos.row (e.line_lens.getD cur_pos.row 0) 0).1
        else e
      else if modifiers.ctrl then
        let col := e.jump_word_forward cur_pos JumpMode.ConsiderWhitespaces
        let new_pos := cur_pos.with_column col
        (e.remove_selection cur_pos new_pos).1
      else (e.remove_char cur_pos.row cur_pos.column).1
  | InputKey.Enter =>
    match e.selection.endp with
    | some _ =>
      let first := e.selection.get_first
      let second := e.selection.get_second
      let e1 := (e.remove_selection first second).1
      let e2 := e1.split_line first.row first.column
      { e2 with
        selection := Selection.from_pos (Pos.from_row_column (first.row + 1) 0) }
    | none =>
      let e1 := e.split_line cur_pos.row cur_pos.column
      { e1 with
        selection := Selection.from_pos (Pos.from_row_column (cur_pos.row + 1) 0) }
  | InputKey.Backspace =>
    if e.selection.endp.isSome then
      let first := e.selection.get_first
      let second := e.selection.get_second
      let e1 := (e.remove_selection first second).1
      { e1 with selection := Selection.from_pos first }
    else if cur_pos.column = 0 then
      if cur_pos.row > 0 then
        let prev_row_i := cur_pos.row - 1
        let prev_len_before_merge := e.line_lens.getD prev_row_i 0
        let me := e.merge_with_next_row prev_row_i prev_len_before_merge 0
        if me.2 then
          { me.1 with
            selection :=
              Selection.from_pos
                (Pos.from_row_column prev_row_i prev_len_before_merge) }
        else me.1
      else e
    else if modifiers.ctrl then
      let col := e.jump_word_backward cur_pos JumpMode.IgnoreWhitespaces
      let new_pos := cur_pos.with_column col
      let e1 := (e.remove_selection new_pos cur_pos).1
      { e1 with selection := Selection.from_pos new_pos }
    else
      let rc := e.remove_char cur_pos.row (cur_pos.column - 1)
      if rc.2 then
        { rc.1 with
          selection := Selection.from_pos (cur_pos.with_column (cur_pos.column - 1)) }
      else rc.1
  | InputKey.Character ch =>
    if ch = 'e' && modifiers.ctrl then
      let prev_index :=
        e.jump_word_backward e.selection.get_first
          (if e.selection.endp.isSome then JumpMode.IgnoreWhitespaces
            else JumpMode.BlockOnWhitespace)
      let next_index :=
        e.jump_word_forward e.selection.get_second
          (if e.selection.endp.isSome then JumpMode.IgnoreWhitespaces
            else JumpMode.BlockOnWhitespace)
      { e with
        selection :=
          Selection.range (cur_pos.with_column prev_index)
            (cur_pos.with_column next_index) }
    else if e.selection.endp.isSome then
      let first0 := e.selection.get_first
      let second := e.selection.get_second
      let first := first0.with_column (first0.column + 1)
      let rs := e.remove_selection first second
      let e2 := if rs.2 then rs.1.set_char first.row (first.column - 1) ch else rs.1
      { e2 with selection := Selection.from_pos first }
    else
      let ic := e.insert_char cur_pos.row cur_pos.column ch
      if ic.2 then
        { ic.1 with
          selection := Selection.from_pos (cur_pos.with_column (cur_pos.column + 1)) }
      else ic.1
  | InputKey.Text str =>
    let text_to_move :=
      ((e.get_line_chars cur_pos.row).drop cur_pos.column).take
        (e.line_lens.getD cur_pos.row 0 - cur_pos.column)
    let ia := e.insert_at str cur_pos.row cur_pos.column
    let e1 := ia.1
    let new_pos := ia.2
    let e2 :=
      if text_to_move.length > 0 then
        let ib := e1.insert_at text_to_move new_pos.row new_pos.column
        { ib.1 with line_lens := ib.1.line_lens.set ib.2.row ib.2.column }
      else e1
    { e2 with selection := Selection.from_pos new_pos }

/-! ### List index toolkit -/

theorem getD_take_lt {α : Type _} (l : List α) :
    ∀ (n i : Nat) (d : α), i < n → (l.take n).getD i d = l.getD i d := by
  induction l with
  | nil => intro n i d _; simp
  | cons a t ih =>
    intro n i d h
    cases n with
    | zero => omega
    | succ n =>
      cases i with
      | zero => simp
      | succ i => simpa using ih n i d (by omega)

theorem getD_drop_add {α : Type _} (l : List α) :
    ∀ (n i : Nat) (d : α), (l.drop n).getD i d = l.getD (n + i) d := by
  induction l with
  | nil => intro n i d; simp
  | cons a t ih =>
    intro n i d
    cases n with
    | zero => simp
    | succ n =>
      have h1 : Nat.succ n + i = Nat.succ (n + i) := by omega
      simp [h1, ih n i d]

theorem getD_set_self {α : Type _} (l : List α) :
    ∀ (i : Nat) (a d : α), i < l.length → (l.set i a).getD i d = a := by
  induction l with
  | nil => intro i a d h; simp at h
  | cons x t ih =>
    intro i a d h
    cases i with
    | zero => simp
    | succ i => simpa using ih i a d (by simpa using Nat.lt_of_succ_lt_succ h)

theorem getD_set_ne {α : Type _} (l : List α) :
    ∀ (i j : Nat) (a d : α), i ≠ j → (l.set i a).getD j d = l.getD j d := by
  induction l with
  | nil => intro i j a d _; simp
  | cons x t ih =>
    intro i j a d h
    cases i with
    | zero =>
      cases j with
      | zero => omega
      | succ j => simp
    | succ i =>
      cases j with
      | zero => simp
      | succ j => simpa using ih i j a d (by omega)

theorem getD_mem {α : Type _} (l : List α) :
    ∀ (i : Nat) (d : α), i < l.length → l.getD i d ∈ l := by
  induction l with
  | nil => intro i d h; simp at h
  | cons x t ih =>
    intro i d h
    cases i with
    | zero => simp
    | succ i =>
      simpa using Or.inr (ih i d (by simpa using Nat.lt_of_succ_lt_succ h))

theorem set_eq_take_append {α : Type _} (l : List α) :
    ∀ (i : Nat) (a : α), i < l.length →
      l.set i a = l.take i ++ a :: l.drop (i + 1) := by
  induction l with
  | nil => intro i a h; simp at h
  | cons x t ih =>
    intro i a h
    cases i with
    | zero => simp
    | succ i => simpa using ih i a (by simpa using Nat.lt_of_succ_lt_succ h)

theorem eq_take_getD_drop {α : Type _} (l : List α) :
    ∀ (i : Nat) (d : α), i < l.length →
      l = l.take i ++ l.getD i d :: l.drop (i + 1) := by
  induction l with
  | nil => intro i d h; simp at h
  | cons x t ih =>
    intro i d h
    cases i with
    | zero => simp
    | succ i =>
      simpa using ih i d (by simpa using Nat.lt_of_succ_lt_succ h)

/-! ### Claim theorems -/

/-- C10: `handle_click` and `handle_drag` never modify the sticky column
`last_column_index`, for any coordinates, while `set_cursor_pos` sets it to
the given column. -/
theorem C10_click_drag_preserve_sticky_column (e : Editor) (x y r c : Nat) :
    (e.handle_click x y).last_column_index = e.last_column_index ∧
    (e.handle_drag x y).last_column_index = e.last_column_index ∧
    (e.set_cursor_pos r c).last_column_index = c :=
  ⟨rfl, rfl, rfl⟩

/-- C5: whenever `insert_char` or `merge_with_next_row` reports failure, the
editor (every row's content and length, the row count, the selection) is left
exactly as it was before the call.  The two calls are quantified over
independent editors, so each no-mutation guarantee stands under only its own
failure hypothesis. -/
theorem C5_capacity_failure_leaves_editor_unchanged (e1 e2 : Editor)
    (row col : Nat) (ch : Char) (row2 fc sc : Nat)
    (h1 : (e1.insert_char row col ch).2 = false)
    (h2 : (e2.merge_with_next_row row2 fc sc).2 = false) :
    (e1.insert_char row col ch).1 = e1 ∧
      (e2.merge_with_next_row row2 fc sc).1 = e2 := by
  constructor
  · by_cases h : e1.line_lens.getD row 0 = e1.max_line_len
    · have hic : e1.insert_char row col ch = (e1, false) := by
        unfold Editor.insert_char
        rw [if_pos h]
      rw [hic]
    · unfold Editor.insert_char at h1
      rw [if_neg h] at h1
      simp at h1
  · by_cases h :
      e2.line_lens.getD row2 0 + e2.line_lens.getD (row2 + 1) 0 > e2.max_line_len
    · have hm : e2.merge_with_next_row row2 fc sc = (e2, false) := by
        unfold Editor.merge_with_next_row
        rw [if_pos h]
      rw [hm]
    · unfold Editor.merge_with_next_row at h2
      rw [if_neg h] at h2
      simp at h2

/-- Concrete editor at capacity 1 with two full rows, used to witness C5. -/
def capacity_one_editor : Editor :=
  { selection := Selection.single 0 0
    last_column_index := 0
    next_blink_at := 0
    show_cursor := false
    max_line_len := 1
    line_lens := [1, 1]
    canvas := [['a'], ['b']] }

/-- Witness for C5 at a concrete full editor. -/
theorem C5_witness :
    (capacity_one_editor.insert_char 0 1 'c').1 = capacity_one_editor ∧
    (capacity_one_editor.merge_with_next_row 0 1 0).1 = capacity_one_editor :=
  C5_capacity_failure_leaves_editor_unchanged capacity_one_editor
    capacity_one_editor 0 1 'c' 0 1 0
    (by decide) (by decide)

/-- C6: with no range selection and the current row already at `max_line_len`,
`Char(c)` (other than ctrl+'e') is a complete no-op on the editor state. -/
theorem C6_char_at_capacity_is_noop (e : Editor) (ch : Char) (m : InputModifiers)
    (hsel : e.selection.endp = none)
    (hlen : e.line_len e.selection.get_cursor_pos.row = e.max_line_len)
    (hch : ¬(ch = 'e' ∧ m.ctrl = true)) :
    e.handle_input (InputKey.Character ch) m = e := by
  have hb : ((ch = 'e' : Bool) && m.ctrl) = false := by
    cases hc : (ch = 'e' : Bool) with
    | false => simp
    | true =>
      cases hm : m.ctrl with
      | false => simp
      | true =>
        exact absurd ⟨by simpa using hc, hm⟩ hch
  simp only [Editor.handle_input, hb, Bool.false_eq_true, if_false, hsel,
    Option.isSome_none, Bool.false_eq_true, if_false]
  have hic : e.insert_char e.selection.get_cursor_pos.row
      e.selection.get_cursor_pos.column ch = (e, false) := by
    simp [Editor.insert_char, Editor.line_len] at hlen ⊢
    simp [hlen]
  simp [hic]

/-- Witness for C6: typing into the full row of a capacity-1 editor. -/
theorem C6_witness :
    capacity_one_editor.handle_input (InputKey.Character 'x') InputModifiers.none =
      capacity_one_editor :=
  C6_char_at_capacity_is_noop capacity_one_editor 'x' InputModifiers.none rfl
    (by decide) (by decide)

/-- The C7 property at one editor and modifier state: `Up` (resp. `Down`)
without shift collapses the selection to a caret at the row above (below),
clamped at the first (last) row to column 0 (the row length), with the target
column `min stickyColumn targetRowLen`, and neither key changes the sticky
column `last_column_index`. -/
def up_down_spec (e : Editor) (m : InputModifiers) : Prop :=
  ((e.handle_input InputKey.Up m).selection =
    Selection.from_pos
      (if e.selection.get_cursor_pos.row = 0 then
        e.selection.get_cursor_pos.with_column 0
      else
        Pos.from_row_column (e.selection.get_cursor_pos.row - 1)
          (min e.last_column_index
            (e.line_len (e.selection.get_cursor_pos.row - 1))))) ∧
  (e.handle_input InputKey.Up m).last_column_index = e.last_column_index ∧
  ((e.handle_input InputKey.Down m).selection =
    Selection.from_pos
      (if e.selection.get_cursor_pos.row = e.line_count - 1 then
        e.selection.get_cursor_pos.with_column
          (e.line_len e.selection.get_cursor_pos.row)
      else
        Pos.from_row_column (e.selection.get_cursor_pos.row + 1)
          (min e.last_column_index
            (e.line_len (e.selection.get_cursor_pos.row + 1))))) ∧
  (e.handle_input InputKey.Down m).last_column_index = e.last_column_index

/-- C7: vertical navigation as described by `up_down_spec`, for every editor
whose cursor row is in bounds and any modifiers without shift. -/
theorem C7_up_down_vertical_navigation (e : Editor) (m : InputModifiers)
    (hs : m.shift = false)
    (_hrow : e.selection.get_cursor_pos.row < e.line_count) :
    up_down_spec e m := by
  refine ⟨?_, ?_, ?_, ?_⟩ <;>
    simp [up_down_spec, Editor.handle_input, hs, Editor.line_len]

/-- Witness for C7 at a concrete fresh editor. -/
theorem C7_witness : up_down_spec (Editor.new 5) InputModifiers.none :=
  C7_up_down_vertical_navigation (Editor.new 5) InputModifiers.none rfl
    (by decide)

/-- Strictly earlier in document order: smaller row, or equal row and smaller
column. -/
def doc_before (a b : Pos) : Prop :=
  a.row < b.row ∨ (a.row = b.row ∧ a.column < b.column)

instance (a b : Pos) : Decidable (doc_before a b) := by
  unfold doc_before
  infer_instance

/-- An editor configured with `maxLineLen = 2000` holding a range selection
between the in-bounds positions (0,1500) and (1,0). -/
def wide_editor : Editor :=
  { selection := Selection.range { row := 0, column := 1500 } { row := 1, column := 0 }
    last_column_index := 0
    next_blink_at := 0
    show_cursor := false
    max_line_len := 2000
    line_lens := [1500, 1]
    canvas := [List.replicate 2000 'a', List.replicate 2000 'b'] }

/-- C3 counterexample: with `maxLineLen = 2000` the selection endpoints
(0,1500) and (1,0) both have column ≤ maxLineLen and (0,1500) is earlier in
document order, yet `get_first` returns (1,0): the hardcoded 1024 rank stride
misorders columns that exceed it. -/
theorem C3_counterexample :
    doc_before { row := 0, column := 1500 } { row := 1, column := 0 } ∧
    1500 ≤ wide_editor.max_line_len ∧
    wide_editor.selection.get_first ≠ { row := 0, column := 1500 } ∧
    wide_editor.selection.get_first = { row := 1, column := 0 } := by
  refine ⟨by decide, by decide, by decide, by decide⟩

/-- C3 amended: for a range selection both of whose endpoint columns are
below the hardcoded 1024 stride (in particular whenever
`maxLineLen < 1024` and the columns are in bounds), `get_first` returns the
endpoint earlier in document order and `get_second` returns the other, later
endpoint. -/
theorem C3_get_first_get_second_document_order (s : Selection) (en : Pos)
    (he : s.endp = some en) (hne : en ≠ s.start)
    (h1 : s.start.column < 1024) (h2 : en.column < 1024) :
    doc_before s.get_first s.get_second ∧
    ((s.get_first = s.start ∧ s.get_second = en) ∨
      (s.get_first = en ∧ s.get_second = s.start)) := by
  have hd : en.row ≠ s.start.row ∨ en.column ≠ s.start.column := by
    by_cases hr : en.row = s.start.row
    · by_cases hc : en.column = s.start.column
      · exact absurd (by cases en; cases s.start; simp_all) hne
      · exact Or.inr hc
    · exact Or.inl hr
  simp only [Selection.get_first, Selection.get_second, he]
  by_cases hlt :
    en.row * 1024 + en.column < s.start.row * 1024 + s.start.column
  · rw [if_pos hlt, if_neg (by omega)]
    exact ⟨by unfold doc_before; omega, Or.inr ⟨rfl, rfl⟩⟩
  · have hgt :
        s.start.row * 1024 + s.start.column < en.row * 1024 + en.column := by
      omega
    rw [if_neg hlt, if_pos hgt]
    exact ⟨by unfold doc_before; omega, Or.inl ⟨rfl, rfl⟩⟩

/-- Witness for the amended C3 at a concrete backwards selection. -/
theorem C3_witness :
    doc_before (Selection.range { row := 1, column := 5 } { row := 0, column := 3 }).get_first
      (Selection.range { row := 1, column := 5 } { row := 0, column := 3 }).get_second ∧
    (((Selection.range { row := 1, column := 5 } { row := 0, column := 3 }).get_first =
          { row := 1, column := 5 } ∧
        (Selection.range { row := 1, column := 5 } { row := 0, column := 3 }).get_second =
          { row := 0, column := 3 }) ∨
      ((Selection.range { row := 1, column := 5 } { row := 0, column := 3 }).get_first =
          { row := 0, column := 3 } ∧
        (Selection.range { row := 1, column := 5 } { row := 0, column := 3 }).get_second =
          { row := 1, column := 5 })) :=
  C3_get_first_get_second_document_order
    (Selection.range { row := 1, column := 5 } { row := 0, column := 3 })
    { row := 0, column := 3 } (by decide) (by decide) (by decide) (by decide)

/-- The editor of C4: a single row "abcdefghijkl mnopqrstuvwxyz" in a
capacity-80 editor with the caret at column 13, immediately after the
space. -/
def c4_editor : Editor :=
  ((Editor.new 80).set_content ("abcdefghijkl mnopqrstuvwxyz").toList).set_cursor_pos
    0 13

/-- C4 counterexample: ctrl+Left from column 13 does not stop at column 12
after "abcdefghijkl"; with `IgnoreWhitespaces` the jump consumes the space
and then the whole word run, landing at column 0 (this matches the source's
own `test_ctrl_plus_left` test). -/
theorem C4_counterexample :
    (c4_editor.handle_input InputKey.Left InputModifiers.ctrl_only).selection.get_cursor_pos =
      { row := 0, column := 0 } ∧
    ({ row := 0, column := 0 } : Pos) ≠ { row := 0, column := 12 } := by
  refine ⟨by decide, by decide⟩

/-- C4 amended: in the C4 editor, ctrl+Left moves the caret to column 0 (the
start of the word "abcdefghijkl"), leaving every row's content and length
unchanged. -/
theorem C4_ctrl_left_moves_to_word_start :
    c4_editor.lines = [("abcdefghijkl mnopqrstuvwxyz").toList] ∧
    c4_editor.selection = Selection.single 0 13 ∧
    (c4_editor.handle_input InputKey.Left InputModifiers.ctrl_only).selection =
      Selection.single 0 0 ∧
    (c4_editor.handle_input InputKey.Left InputModifiers.ctrl_only).canvas =
      c4_editor.canvas ∧
    (c4_editor.handle_input InputKey.Left InputModifiers.ctrl_only).line_lens =
      c4_editor.line_lens := by
  refine ⟨by decide, by decide, by decide, by decide, by decide⟩

/-! ### Index lemmas for the splice-style row insertion and removal -/

theorem length_splice_in {α : Type _} (l : List α) (i : Nat) (a : α)
    (h : i ≤ l.length) : (l.take i ++ [a] ++ l.drop i).length = l.length + 1 := by
  simp only [List.length_append, List.length_take, List.length_drop,
    List.length_cons, List.length_nil]
  omega

theorem getD_splice_in_lt {α : Type _} (l : List α) (i j : Nat) (a d : α)
    (hi : i ≤ l.length) (h : j < i) :
    (l.take i ++ [a] ++ l.drop i).getD j d = l.getD j d := by
  rw [List.append_assoc,
    List.getD_append _ _ _ _ (by rw [List.length_take]; omega),
    getD_take_lt _ _ _ _ h]

theorem getD_splice_in_self {α : Type _} (l : List α) (i : Nat) (a d : α)
    (hi : i ≤ l.length) :
    (l.take i ++ [a] ++ l.drop i).getD i d = a := by
  rw [List.append_assoc,
    List.getD_append_right _ _ _ _ (by rw [List.length_take]; omega)]
  have h0 : i - (l.take i).length = 0 := by rw [List.length_take]; omega
  rw [h0]
  rfl

theorem getD_splice_in_gt {α : Type _} (l : List α) (i j : Nat) (a d : α)
    (hi : i ≤ l.length) (h : i < j) :
    (l.take i ++ [a] ++ l.drop i).getD j d = l.getD (j - 1) d := by
  rw [List.getD_append_right _ _ _ _
    (by simp only [List.length_append, List.length_take, List.length_cons,
      List.length_nil]; omega)]
  rw [getD_drop_add]
  congr 1
  simp only [List.length_append, List.length_take, List.length_cons,
    List.length_nil]
  omega

theorem length_splice_out {α : Type _} (l : List α) (i : Nat)
    (h : i < l.length) : (l.take i ++ l.drop (i + 1)).length = l.length - 1 := by
  simp only [List.length_append, List.length_take, List.length_drop]
  omega

theorem getD_splice_out_lt {α : Type _} (l : List α) (i j : Nat) (d : α)
    (hi : i ≤ l.length) (h : j < i) :
    (l.take i ++ l.drop (i + 1)).getD j d = l.getD j d := by
  rw [List.getD_append _ _ _ _ (by rw [List.length_take]; omega),
    getD_take_lt _ _ _ _ h]

theorem getD_splice_out_ge {α : Type _} (l : List α) (i j : Nat) (d : α)
    (hi : i ≤ l.length) (h : i ≤ j) :
    (l.take i ++ l.drop (i + 1)).getD j d = l.getD (j + 1) d := by
  rw [List.getD_append_right _ _ _ _ (by rw [List.length_take]; omega)]
  rw [getD_drop_add]
  congr 1
  rw [List.length_take]
  omega

/-! ### Shape lemmas for the editor operations -/

theorem push_lines_zero (e : Editor) : e.push_lines 0 = e := rfl

/-- `set_char` on an existing row appends nothing and only rewrites the one
cell. -/
theorem set_char_of_lt (e : Editor) (r c : Nat) (ch : Char)
    (h : r < e.line_count) :
    e.set_char r c ch =
      { e with canvas := e.canvas.set r ((e.canvas.getD r []).set c ch) } := by
  unfold Editor.set_char
  have h0 : r + 1 - e.line_count = 0 := by omega
  rw [h0, push_lines_zero]

theorem line_lens_set_char (e : Editor) (r c : Nat) (ch : Char)
    (h : r < e.line_count) : (e.set_char r c ch).line_lens = e.line_lens := by
  rw [set_char_of_lt e r c ch h]

theorem line_count_set_char (e : Editor) (r c : Nat) (ch : Char)
    (h : r < e.line_count) : (e.set_char r c ch).line_count = e.line_count := by
  unfold Editor.line_count
  rw [line_lens_set_char e r c ch h]

theorem line_count_insert_line_at (e : Editor) (i : Nat) (h : i ≤ e.line_count) :
    (e.insert_line_at i).line_count = e.line_count + 1 := by
  unfold Editor.line_count Editor.insert_line_at
  exact length_splice_in _ _ _ h

theorem selection_insert_line_at (e : Editor) (i : Nat) :
    (e.insert_line_at i).selection = e.selection := rfl

theorem max_line_len_insert_line_at (e : Editor) (i : Nat) :
    (e.insert_line_at i).max_line_len = e.max_line_len := rfl

/-- Inductive core of C9 over `insert_at_loop`: the loop never removes a row,
ends at or below the row it started in, and keeps every row strictly below
its final row at length 0 whenever the rows strictly below the starting row
all had length 0. -/
theorem insert_at_loop_grows (cs : List Char) :
    ∀ (f : Editor) (r col : Nat),
      r < f.line_count →
      (∀ i, r < i → i < f.line_count → f.line_lens.getD i 0 = 0) →
      f.line_count ≤ (f.insert_at_loop cs r col).1.line_count ∧
      r ≤ (f.insert_at_loop cs r col).2.row ∧
      (∀ i, (f.insert_at_loop cs r col).2.row < i →
          i < (f.insert_at_loop cs r col).1.line_count →
          (f.insert_at_loop cs r col).1.line_lens.getD i 0 = 0) := by
  induction cs with
  | nil =>
    intro f r col hr hz
    simp only [Editor.insert_at_loop, Pos.from_row_column]
    refine ⟨by simp [Editor.line_count], Nat.le_refl r, ?_⟩
    intro i hi hic
    rw [getD_set_ne f.line_lens r i col 0 (by omega)]
    exact hz i hi (by simpa [Editor.line_count] using hic)
  | cons ch rest ih =>
    intro f r col hr hz
    by_cases hcr : ch = '\r'
    · simp only [Editor.insert_at_loop, if_pos hcr]
      exact ih f r col hr hz
    · by_cases hcn : ch = '\n'
      · simp only [Editor.insert_at_loop, if_neg hcr, if_pos hcn]
        have hlen1 : r + 1 ≤ (f.line_lens.set r col).length := by
          simp [Editor.line_count] at hr
          simp
          omega
        have hc2 : (({ f with line_lens := f.line_lens.set r col } :
            Editor).insert_line_at (r + 1)).line_count = f.line_count + 1 := by
          rw [line_count_insert_line_at _ _ (by simpa [Editor.line_count] using hlen1)]
          simp [Editor.line_count]
        have hz2 : ∀ i, r + 1 < i →
            i < (({ f with line_lens := f.line_lens.set r col } :
              Editor).insert_line_at (r + 1)).line_count →
            (({ f with line_lens := f.line_lens.set r col } :
              Editor).insert_line_at (r + 1)).line_lens.getD i 0 = 0 := by
          intro i hi hic
          rw [hc2] at hic
          show ((f.line_lens.set r col).take (r + 1) ++ [0] ++
            (f.line_lens.set r col).drop (r + 1)).getD i 0 = 0
          rw [getD_splice_in_gt _ _ _ _ _ hlen1 hi]
          rw [getD_set_ne f.line_lens r (i - 1) col 0 (by omega)]
          exact hz (i - 1) (by omega) (by simp [Editor.line_count] at hic ⊢; omega)
        obtain ⟨g1, g2, g3⟩ := ih _ (r + 1) 0 (by rw [hc2]; omega) hz2
        rw [hc2] at g1
        exact ⟨by omega, by omega, g3⟩
      · by_cases hcm : col = f.max_line_len
        · simp only [Editor.insert_at_loop, if_neg hcr, if_neg hcn, if_pos hcm]
          have hlen1 : r + 1 ≤ (f.line_lens.set r col).length := by
            simp [Editor.line_count] at hr
            simp
            omega
          have hc2 : (({ f with line_lens := f.line_lens.set r col } :
              Editor).insert_line_at (r + 1)).line_count = f.line_count + 1 := by
            rw [line_count_insert_line_at _ _ (by simpa [Editor.line_count] using hlen1)]
            simp [Editor.line_count]
          have hc3 : ((({ f with line_lens := f.line_lens.set r col } :
              Editor).insert_line_at (r + 1)).set_char (r + 1) 0 ch).line_count =
              f.line_count + 1 := by
            rw [line_count_set_char _ _ _ _ (by rw [hc2]; omega), hc2]
          have hlens3 : ((({ f with line_lens := f.line_lens.set r col } :
              Editor).insert_line_at (r + 1)).set_char (r + 1) 0 ch).line_lens =
              (({ f with line_lens := f.line_lens.set r col } :
                Editor).insert_line_at (r + 1)).line_lens :=
            line_lens_set_char _ _ _ _ (by rw [hc2]; omega)
          have hz2 : ∀ i, r + 1 < i →
              i < ((({ f with line_lens := f.line_lens.set r col } :
                Editor).insert_line_at (r + 1)).set_char (r + 1) 0 ch).line_count →
              ((({ f with line_lens := f.line_lens.set r col } :
                Editor).insert_line_at (r + 1)).set_char (r + 1) 0 ch).line_lens.getD
                i 0 = 0 := by
            intro i hi hic
            rw [hc3] at hic
            rw [hlens3]
            show ((f.line_lens.set r col).take (r + 1) ++ [0] ++
              (f.line_lens.set r col).drop (r + 1)).getD i 0 = 0
            rw [getD_splice_in_gt _ _ _ _ _ hlen1 hi]
            rw [getD_set_ne f.line_lens r (i - 1) col 0 (by omega)]
            exact hz (i - 1) (by omega) (by simp [Editor.line_count] at hic ⊢; omega)
          obtain ⟨g1, g2, g3⟩ := ih _ (r + 1) 1 (by rw [hc3]; omega) hz2
          rw [hc3] at g1
          exact ⟨by omega, by omega, g3⟩
        · simp only [Editor.insert_at_loop, if_neg hcr, if_neg hcn, if_neg hcm]
          have hc1 : (f.set_char r col ch).line_count = f.line_count :=
            line_count_set_char f r col ch hr
          have hl1 : (f.set_char r col ch).line_lens = f.line_lens :=
            line_lens_set_char f r col ch hr
          have hz1 : ∀ i, r < i → i < (f.set_char r col ch).line_count →
              (f.set_char r col ch).line_lens.getD i 0 = 0 := by
            intro i hi hic
            rw [hl1]
            exact hz i hi (by rwa [hc1] at hic)
          obtain ⟨g1, g2, g3⟩ := ih _ r (col + 1) (by rwa [hc1]) hz1
          rw [hc1] at g1
          exact ⟨g1, g2, g3⟩

theorem getD_map_zero (l : List Nat) : ∀ i, (l.map (fun _ => 0)).getD i 0 = 0 := by
  induction l with
  | nil => intro i; simp
  | cons x t ih =>
    intro i
    cases i with
    | zero => simp
    | succ i => simp [ih i]

/-- The C9 property at one editor and text: `set_content` never shrinks the
row count, and every pre-existing row strictly below the final written row is
still present with length 0. -/
def set_content_growth_spec (e : Editor) (text : List Char) : Prop :=
  e.line_count ≤ (e.set_content text).line_count ∧
  (∀ i, (((e.clear).set_cursor_pos 0 0).insert_at text 0 0).2.row < i →
      i < (e.set_content text).line_count →
      (e.set_content text).line_len i = 0)

/-- C9: `set_content` only zeroes lengths (`clear`) and inserts rows
(`insert_at`), so the row count never decreases and the rows beyond those
written by the text remain present with length 0. -/
theorem C9_set_content_never_removes_rows (e : Editor) (text : List Char)
    (h : 1 ≤ e.line_count) :
    set_content_growth_spec e text := by
  have hcount : ((e.clear).set_cursor_pos 0 0).line_count = e.line_count := by
    simp [Editor.clear, Editor.set_cursor_pos, Editor.line_count]
  have hz : ∀ i, 0 < i → i < ((e.clear).set_cursor_pos 0 0).line_count →
      ((e.clear).set_cursor_pos 0 0).line_lens.getD i 0 = 0 := by
    intro i _ _
    exact getD_map_zero e.line_lens i
  obtain ⟨g1, g2, g3⟩ :=
    insert_at_loop_grows text ((e.clear).set_cursor_pos 0 0) 0 0
      (by omega) hz
  refine ⟨by rw [hcount] at g1; exact g1, ?_⟩
  intro i hi hic
  exact g3 i hi hic

/-- Witness for C9 at a concrete editor and two-line text. -/
theorem C9_witness :
    set_content_growth_spec (Editor.new 3) ("ab\ncd").toList :=
  C9_set_content_never_removes_rows (Editor.new 3) ("ab\ncd").toList (by decide)

/-! ### The non-degenerate-selection invariant (C8) -/

/-- A selection is non-degenerate when its floating end, if present, differs
from the anchor. -/
def sel_ok (s : Selection) : Bool :=
  match s.endp with
  | none => true
  | some p => p ≠ s.start

theorem sel_ok_from_pos (p : Pos) : sel_ok (Selection.from_pos p) = true := rfl

theorem sel_ok_single (r c : Nat) : sel_ok (Selection.single r c) = true := rfl

theorem sel_ok_range (a b : Pos) : sel_ok (Selection.range a b) = true := by
  unfold Selection.range sel_ok
  by_cases h : a = b
  · rw [if_pos h]
  · rw [if_neg h]
    simp only [decide_eq_true_eq, ne_eq]
    exact fun hc => h hc.symm

theorem sel_ok_extend (s : Selection) (q : Pos) : sel_ok (s.extend q) = true := by
  unfold Selection.extend
  by_cases h : s.start = q
  · rw [if_pos h]
    exact sel_ok_single _ _
  · rw [if_neg h]
    exact sel_ok_range _ _

theorem selection_push_lines (k : Nat) :
    ∀ e : Editor, (e.push_lines k).selection = e.selection := by
  induction k with
  | zero => intro e; rfl
  | succ k ih => intro e; exact ih e.push_line

theorem selection_set_char (e : Editor) (r c : Nat) (ch : Char) :
    (e.set_char r c ch).selection = e.selection := by
  unfold Editor.set_char
  exact selection_push_lines _ e

theorem selection_insert_char (e : Editor) (r c : Nat) (ch : Char) :
    (e.insert_char r c ch).1.selection = e.selection := by
  unfold Editor.insert_char
  split <;> rfl

theorem selection_remove_char (e : Editor) (r c : Nat) :
    (e.remove_char r c).1.selection = e.selection := rfl

theorem selection_merge_with_next_row (e : Editor) (r fc sc : Nat) :
    (e.merge_with_next_row r fc sc).1.selection = e.selection := by
  unfold Editor.merge_with_next_row
  split <;> rfl

theorem selection_remove_lines_at (k : Nat) :
    ∀ (e : Editor) (i : Nat), (e.remove_lines_at i k).selection = e.selection := by
  induction k with
  | zero => intro e i; rfl
  | succ k ih => intro e i; exact ih _ i

theorem selection_remove_selection (e : Editor) (a b : Pos) :
    (e.remove_selection a b).1.selection = e.selection := by
  unfold Editor.remove_selection
  split
  · rw [selection_merge_with_next_row]
    exact selection_remove_lines_at _ e _
  · rfl

theorem selection_split_line (e : Editor) (r c : Nat) :
    (e.split_line r c).selection = e.selection := rfl

theorem selection_insert_at_loop (cs : List Char) :
    ∀ (e : Editor) (r c : Nat),
      (e.insert_at_loop cs r c).1.selection = e.selection := by
  induction cs with
  | nil => intro e r c; rfl
  | cons ch rest ih =>
    intro e r c
    by_cases hcr : ch = '\r'
    · simp only [Editor.insert_at_loop, if_pos hcr]
      exact ih e r c
    · by_cases hcn : ch = '\n'
      · simp only [Editor.insert_at_loop, if_neg hcr, if_pos hcn]
        exact ih _ _ _
      · by_cases hcm : c = e.max_line_len
        · simp only [Editor.insert_at_loop, if_neg hcr, if_neg hcn, if_pos hcm]
          rw [ih _ _ _, selection_set_char]
          rfl
        · simp only [Editor.insert_at_loop, if_neg hcr, if_neg hcn, if_neg hcm]
          rw [ih _ _ _, selection_set_char]

theorem selection_set_content (e : Editor) (t : List Char) :
    (e.set_content t).selection = Selection.single 0 0 := by
  unfold Editor.set_content Editor.insert_at
  rw [selection_insert_at_loop]
  rfl

/-- One `handle_input` step preserves selection non-degeneracy: every arm
either writes a collapsing constructor (`from_pos`, `extend`, `range`) or
leaves the selection untouched. -/
theorem sel_ok_handle_input (e : Editor) (k : InputKey) (m : InputModifiers)
    (h : sel_ok e.selection = true) :
    sel_ok (e.handle_input k m).selection = true := by
  cases k with
  | Home =>
    simp only [Editor.handle_input]
    split_ifs <;>
      first
        | exact sel_ok_extend _ _
        | exact sel_ok_from_pos _
  | End =>
    simp only [Editor.handle_input]
    split_ifs <;>
      first
        | exact sel_ok_extend _ _
        | exact sel_ok_from_pos _
  | Right =>
    simp only [Editor.handle_input]
    split_ifs <;>
      first
        | exact sel_ok_extend _ _
        | exact sel_ok_from_pos _
  | Left =>
    simp only [Editor.handle_input]
    split_ifs <;>
      first
        | exact sel_ok_extend _ _
        | exact sel_ok_from_pos _
  | Up =>
    simp only [Editor.handle_input]
    split_ifs <;>
      first
        | exact sel_ok_extend _ _
        | exact sel_ok_from_pos _
  | Down =>
    simp only [Editor.handle_input]
    split_ifs <;>
      first
        | exact sel_ok_extend _ _
        | exact sel_ok_from_pos _
  | Del =>
    cases hsel : e.selection.endp with
    | some p =>
      simp only [Editor.handle_input, hsel]
      exact sel_ok_from_pos _
    | none =>
      simp only [Editor.handle_input, hsel]
      split_ifs <;>
        first
          | exact sel_ok_from_pos _
          | (rw [selection_merge_with_next_row]; exact h)
          | (rw [selection_remove_selection]; exact h)
          | (rw [selection_remove_char]; exact h)
          | exact h
  | Enter =>
    cases hsel : e.selection.endp with
    | some p =>
      simp only [Editor.handle_input, hsel]
      exact sel_ok_from_pos _
    | none =>
      simp only [Editor.handle_input, hsel]
      exact sel_ok_from_pos _
  | Backspace =>
    cases hsel : e.selection.endp with
    | some p =>
      simp only [Editor.handle_input, hsel, Option.isSome_some, if_true]
      exact sel_ok_from_pos _
    | none =>
      simp only [Editor.handle_input, hsel, Option.isSome_none]
      split_ifs <;>
        first
          | exact sel_ok_from_pos _
          | (rw [selection_merge_with_next_row]; exact h)
          | (rw [selection_remove_char]; exact h)
          | exact h
  | Character ch =>
    cases hsel : e.selection.endp with
    | some p =>
      simp only [Editor.handle_input, hsel, Option.isSome_some, if_true]
      split_ifs <;>
        first
          | exact sel_ok_range _ _
          | exact sel_ok_from_pos _
    | none =>
      simp only [Editor.handle_input, hsel, Option.isSome_none]
      split_ifs <;>
        first
          | exact sel_ok_range _ _
          | exact sel_ok_from_pos _
          | (rw [selection_insert_char]; exact h)
  | Text s =>
    simp only [Editor.handle_input]
    exact sel_ok_from_pos _

/-- The editor states reachable through the public interface of editor.rs:
construction plus the §6 operations (input, click, drag, cursor and selection
setters, content replacement, blink tick). -/
inductive Reachable : Editor → Prop where
  | new_editor (max_len : Nat) : Reachable (Editor.new max_len)
  | input {e : Editor} (k : InputKey) (m : InputModifiers) :
      Reachable e → Reachable (e.handle_input k m)
  | click {e : Editor} (x y : Nat) : Reachable e → Reachable (e.handle_click x y)
  | drag {e : Editor} (x y : Nat) : Reachable e → Reachable (e.handle_drag x y)
  | cursor {e : Editor} (r c : Nat) : Reachable e → Reachable (e.set_cursor_pos r c)
  | selset {e : Editor} (a b : Pos) : Reachable e → Reachable (e.set_selection a b)
  | content {e : Editor} (t : List Char) : Reachable e → Reachable (e.set_content t)
  | tick {e : Editor} (now : Nat) : Reachable e → Reachable (e.handle_tick now).1

/-- C8: in every reachable editor state the selection is never a degenerate
range: a present floating end always differs from the anchor, because every
selection constructor collapses equal endpoints to a caret. -/
theorem C8_selection_never_degenerate (e : Editor) (h : Reachable e) :
    sel_ok e.selection = true := by
  induction h with
  | new_editor max_len => rfl
  | input k m _ ih => exact sel_ok_handle_input _ k m ih
  | click x y _ ih => exact sel_ok_from_pos _
  | drag x y _ ih => exact sel_ok_extend _ _
  | cursor r c _ ih => exact sel_ok_single _ _
  | selset a b _ ih => exact sel_ok_range _ _
  | content t _ ih =>
    rw [selection_set_content]
    exact sel_ok_single _ _
  | tick now _ ih =>
    have hs : ∀ (f : Editor) (now : Nat), (f.handle_tick now).1.selection = f.selection := by
      intro f now
      unfold Editor.handle_tick
      split <;> rfl
    rw [hs]
    exact ih

/-- Witness for C8 at a freshly constructed editor. -/
theorem C8_witness : sel_ok (Editor.new 10).selection = true :=
  C8_selection_never_degenerate (Editor.new 10) (Reachable.new_editor 10)

/-! ### Removing a range selection (C1) -/

/-- The visible content of row `i`: the first `line_len i` characters of its
stride chunk. -/
def Editor.row_content (e : Editor) (i : Nat) : List Char :=
  (e.canvas.getD i []).take (e.line_lens.getD i 0)

/-- Structural well-formedness of an editor state: the chunked canvas and the
length array have the same number of rows, every chunk has exactly stride
length, and every row length is within capacity.  Every state the Rust code
can reach satisfies this; it is what the flat-canvas representation encodes
by construction. -/
def Editor.wf (e : Editor) : Prop :=
  e.canvas.length = e.line_lens.length ∧
  (∀ r ∈ e.canvas, r.length = e.max_line_len) ∧
  (∀ n ∈ e.line_lens, n ≤ e.max_line_len)

theorem splice_out_splice_out {α : Type _} (l : List α) (i k : Nat)
    (hi : i ≤ l.length) :
    (l.take i ++ l.drop (i + 1)).take i ++
        (l.take i ++ l.drop (i + 1)).drop (i + k) =
      l.take i ++ l.drop (i + k + 1) := by
  have hlen : (l.take i).length = i := by rw [List.length_take]; omega
  rw [List.take_append_eq_append_take, List.drop_append_eq_append_drop, hlen]
  rw [List.take_take]
  have h1 : min i i = i := Nat.min_self i
  have h2 : i - i = 0 := Nat.sub_self i
  rw [h1, h2]
  simp only [List.take_zero, List.append_nil]
  have h4 : (l.take i).drop (i + k) = [] :=
    List.drop_eq_nil_of_le (by rw [List.length_take]; omega)
  rw [h4]
  simp only [List.nil_append]
  rw [List.drop_drop]
  have h5 : i + 1 + (i + k - i) = i + k + 1 := by omega
  rw [h5]

/-- The interior-row loop removes exactly the `k` chunks starting at `i`. -/
theorem remove_lines_at_spec (k : Nat) :
    ∀ (e : Editor) (i : Nat),
      i + k ≤ e.canvas.length → i + k ≤ e.line_lens.length →
      (e.remove_lines_at i k).canvas = e.canvas.take i ++ e.canvas.drop (i + k) ∧
      (e.remove_lines_at i k).line_lens =
        e.line_lens.take i ++ e.line_lens.drop (i + k) ∧
      (e.remove_lines_at i k).max_line_len = e.max_line_len := by
  induction k with
  | zero =>
    intro e i h1 h2
    refine ⟨?_, ?_, rfl⟩
    · show e.canvas = _
      rw [Nat.add_zero, List.take_append_drop]
    · show e.line_lens = _
      rw [Nat.add_zero, List.take_append_drop]
  | succ k ih =>
    intro e i h1 h2
    have hlc : (e.remove_line_at i).canvas =
        e.canvas.take i ++ e.canvas.drop (i + 1) := rfl
    have hll : (e.remove_line_at i).line_lens =
        e.line_lens.take i ++ e.line_lens.drop (i + 1) := rfl
    have hb1 : i + k ≤ (e.remove_line_at i).canvas.length := by
      rw [hlc]
      simp only [List.length_append, List.length_take, List.length_drop]
      omega
    have hb2 : i + k ≤ (e.remove_line_at i).line_lens.length := by
      rw [hll]
      simp only [List.length_append, List.length_take, List.length_drop]
      omega
    obtain ⟨g1, g2, g3⟩ := ih (e.remove_line_at i) i hb1 hb2
    refine ⟨?_, ?_, g3⟩
    · show ((e.remove_line_at i).remove_lines_at i k).canvas = _
      rw [g1, hlc, splice_out_splice_out e.canvas i k (by omega)]
      have : i + k + 1 = i + (k + 1) := by omega
      rw [this]
    · show ((e.remove_line_at i).remove_lines_at i k).line_lens = _
      rw [g2, hll, splice_out_splice_out e.line_lens i k (by omega)]
      have : i + k + 1 = i + (k + 1) := by omega
      rw [this]

/-- Same-row `remove_selection` shift: restricted to the visible length, the
in-row memmove keeps the columns before `cF` and moves `[cS, len)` down to
`cF`. -/
theorem same_row_take (r : List Char) (cF cS len : Nat)
    (hcF : cF ≤ cS) (hcS : cS ≤ len) (hlen : len ≤ r.length) :
    (copy_within r cS r.length cF).take (len - (cS - cF)) =
      (r.take len).take cF ++ (r.take len).drop cS := by
  unfold copy_within
  have hm : len - (cS - cF) = cF + (len - cS) := by omega
  rw [hm, List.append_assoc, List.take_append_eq_append_take]
  have hA : (r.take cF).length = cF := by rw [List.length_take]; omega
  rw [List.take_of_length_le (by omega), hA]
  have hm2 : cF + (len - cS) - cF = len - cS := by omega
  rw [hm2, List.take_append_eq_append_take]
  have hB : ((r.drop cS).take (r.length - cS)).length = r.length - cS := by
    rw [List.length_take, List.length_drop]
    omega
  rw [hB]
  have hm3 : len - cS - (r.length - cS) = 0 := by omega
  rw [hm3, List.take_zero, List.append_nil, List.take_take]
  have hm4 : min (len - cS) (r.length - cS) = len - cS := by omega
  rw [hm4, List.take_take]
  have hm5 : min cF len = cF := by omega
  rw [hm5, List.drop_take]

/-- Cross-row merge: restricted to the visible length, the merged row is the
prefix of the upper row followed by the visible suffix of the lower row. -/
theorem merged_row_take (r1 r2 : List Char) (cF cS lenF lenS : Nat)
    (hcF : cF ≤ lenF) (hlenF : lenF ≤ r1.length) (hcS : cS ≤ lenS)
    (hlenS : lenS ≤ r2.length) :
    (r1.take cF ++ (r2.drop cS).take (lenS - cS) ++
        r1.drop (cF + ((r2.drop cS).take (lenS - cS)).length)).take
        (cF + (lenS - cS)) =
      (r1.take lenF).take cF ++ (r2.take lenS).drop cS := by
  rw [List.append_assoc, List.take_append_eq_append_take]
  have hA : (r1.take cF).length = cF := by rw [List.length_take]; omega
  rw [List.take_of_length_le (by omega), hA]
  have hm2 : cF + (lenS - cS) - cF = lenS - cS := by omega
  rw [hm2, List.take_append_eq_append_take]
  have hB : ((r2.drop cS).take (lenS - cS)).length = lenS - cS := by
    rw [List.length_take, List.length_drop]
    omega
  rw [hB]
  have hm3 : lenS - cS - (lenS - cS) = 0 := by omega
  rw [hm3, List.take_zero, List.append_nil,
    List.take_of_length_le (le_of_eq hB), List.take_take]
  have hm5 : min cF lenF = cF := by omega
  rw [hm5, List.drop_take]

/-- Splicing out row `Fr + 1` of `take Fr ++ mg :: drop Sr` yields
`take Fr ++ [mg] ++ drop (Sr + 1)`: the merge then row removal step of
`merge_with_next_row` in closed form. -/
theorem splice_merge_form {α : Type _} (C : List α) (Fr Sr : Nat) (mg : α)
    (hF : Fr ≤ C.length) :
    (C.take Fr ++ mg :: C.drop Sr).take (Fr + 1) ++
      (C.take Fr ++ mg :: C.drop Sr).drop (Fr + 2) =
      (C.take Fr ++ [mg]) ++ C.drop (Sr + 1) := by
  have hlA : (C.take Fr).length = Fr := by rw [List.length_take]; omega
  rw [List.take_append_eq_append_take, List.drop_append_eq_append_drop, hlA]
  rw [List.take_take]
  have hm1 : min (Fr + 1) Fr = Fr := by omega
  have hm2 : Fr + 1 - Fr = 1 := by omega
  have hm3 : Fr + 2 - Fr = 2 := by omega
  rw [hm1, hm2, hm3]
  have hd0 : (C.take Fr).drop (Fr + 2) = [] :=
    List.drop_eq_nil_of_le (by rw [hlA]; omega)
  have ht1 : (mg :: C.drop Sr).take 1 = [mg] := rfl
  have ht2 : (mg :: C.drop Sr).drop 2 = (C.drop Sr).drop 1 := rfl
  rw [hd0, ht1, ht2, List.drop_drop, List.nil_append]

theorem getD_merge_lt {α : Type _} (C : List α) (Fr Sr i : Nat) (mg d : α)
    (hF : Fr ≤ C.length) (h : i < Fr) :
    ((C.take Fr ++ [mg]) ++ C.drop (Sr + 1)).getD i d = C.getD i d := by
  rw [List.getD_append _ _ _ _
    (by simp only [List.length_append, List.length_take, List.length_cons,
      List.length_nil]; omega)]
  rw [List.getD_append _ _ _ _ (by rw [List.length_take]; omega)]
  exact getD_take_lt _ _ _ _ h

theorem getD_merge_self {α : Type _} (C : List α) (Fr Sr : Nat) (mg d : α)
    (hF : Fr ≤ C.length) :
    ((C.take Fr ++ [mg]) ++ C.drop (Sr + 1)).getD Fr d = mg := by
  rw [List.getD_append _ _ _ _
    (by simp only [List.length_append, List.length_take, List.length_cons,
      List.length_nil]; omega)]
  rw [List.getD_append_right _ _ _ _ (by rw [List.length_take]; omega)]
  have h0 : Fr - (C.take Fr).length = 0 := by rw [List.length_take]; omega
  rw [h0]
  rfl

theorem getD_merge_gt {α : Type _} (C : List α) (Fr Sr i : Nat) (mg d : α)
    (hF : Fr ≤ C.length) (h : Fr < i) :
    ((C.take Fr ++ [mg]) ++ C.drop (Sr + 1)).getD i d =
      C.getD (Sr + 1 + (i - (Fr + 1))) d := by
  rw [List.getD_append_right _ _ _ _
    (by simp only [List.length_append, List.length_take, List.length_cons,
      List.length_nil]; omega)]
  rw [getD_drop_add]
  congr 1
  simp only [List.length_append, List.length_take, List.length_cons,
    List.length_nil]
  omega

/-- The cross-row case of `remove_selection`: interior rows are spliced out,
then the successful merge joins the first row's prefix with the second row's
visible suffix. -/
theorem remove_selection_shape_multi (e : Editor) (F S : Pos)
    (hwf1 : e.canvas.length = e.line_lens.length)
    (hwf2 : ∀ r ∈ e.canvas, r.length = e.max_line_len)
    (hlt : F.row < S.row)
    (hrow2 : S.row < e.line_lens.length)
    (hcol1 : F.column ≤ e.line_lens.getD F.row 0)
    (hcol2 : S.column ≤ e.line_lens.getD S.row 0)
    (hlenF : e.line_lens.getD F.row 0 ≤ e.max_line_len)
    (hlenS : e.line_lens.getD S.row 0 ≤ e.max_line_len)
    (hcap : F.row = S.row ∨
      e.line_lens.getD F.row 0 + e.line_lens.getD S.row 0 ≤ e.max_line_len) :
    (e.remove_selection F S).1.line_lens.length =
      e.line_lens.length - (S.row - F.row) ∧
    (∀ i, i < F.row →
      (e.remove_selection F S).1.canvas.getD i [] = e.canvas.getD i [] ∧
      (e.remove_selection F S).1.line_lens.getD i 0 = e.line_lens.getD i 0) ∧
    (e.remove_selection F S).1.row_content F.row =
      (e.row_content F.row).take F.column ++
        (e.row_content S.row).drop S.column ∧
    (e.remove_selection F S).1.line_lens.getD F.row 0 =
      F.column + (e.line_lens.getD S.row 0 - S.column) ∧
    (∀ i, F.row < i → i < (e.remove_selection F S).1.line_lens.length →
      (e.remove_selection F S).1.canvas.getD i [] =
        e.canvas.getD (i + (S.row - F.row)) [] ∧
      (e.remove_selection F S).1.line_lens.getD i 0 =
        e.line_lens.getD (i + (S.row - F.row)) 0) := by
  have hcap2 : e.line_lens.getD F.row 0 + e.line_lens.getD S.row 0 ≤
      e.max_line_len := by
    rcases hcap with h | h
    · omega
    · exact h
  have hgt : S.row > F.row := hlt
  have hb1 : F.row + 1 + (S.row - (F.row + 1)) ≤ e.canvas.length := by omega
  have hb2 : F.row + 1 + (S.row - (F.row + 1)) ≤ e.line_lens.length := by omega
  obtain ⟨gc, gl, gm⟩ :=
    remove_lines_at_spec (S.row - (F.row + 1)) e (F.row + 1) hb1 hb2
  have hk : F.row + 1 + (S.row - (F.row + 1)) = S.row := by omega
  rw [hk] at gc gl
  have hFn : F.row < e.line_lens.length := by omega
  have hFc : F.row < e.canvas.length := by omega
  have hSc : S.row < e.canvas.length := by omega
  have htlen : (e.canvas.take (F.row + 1)).length = F.row + 1 := by
    rw [List.length_take]
    omega
  have htlenL : (e.line_lens.take (F.row + 1)).length = F.row + 1 := by
    rw [List.length_take]
    omega
  -- the four getD values of the spliced editor
  have hg1 : (e.remove_lines_at (F.row + 1) (S.row - (F.row + 1))).line_lens.getD
      F.row 0 = e.line_lens.getD F.row 0 := by
    rw [gl, List.getD_append _ _ _ _ (by omega), getD_take_lt _ _ _ _ (by omega)]
  have hg2 : (e.remove_lines_at (F.row + 1) (S.row - (F.row + 1))).line_lens.getD
      (F.row + 1) 0 = e.line_lens.getD S.row 0 := by
    rw [gl, List.getD_append_right _ _ _ _ (by omega)]
    rw [htlenL, Nat.sub_self, getD_drop_add, Nat.add_zero]
  have hgc1 : (e.remove_lines_at (F.row + 1) (S.row - (F.row + 1))).canvas.getD
      F.row [] = e.canvas.getD F.row [] := by
    rw [gc, List.getD_append _ _ _ _ (by omega), getD_take_lt _ _ _ _ (by omega)]
  have hgc2 : (e.remove_lines_at (F.row + 1) (S.row - (F.row + 1))).canvas.getD
      (F.row + 1) [] = e.canvas.getD S.row [] := by
    rw [gc, List.getD_append_right _ _ _ _ (by omega)]
    rw [htlen, Nat.sub_self, getD_drop_add, Nat.add_zero]
  have hcond : ¬((e.remove_lines_at (F.row + 1) (S.row - (F.row + 1))).line_lens.getD
      F.row 0 +
      (e.remove_lines_at (F.row + 1) (S.row - (F.row + 1))).line_lens.getD
        (F.row + 1) 0 >
      (e.remove_lines_at (F.row + 1) (S.row - (F.row + 1))).max_line_len) := by
    rw [hg1, hg2, gm]
    omega
  -- name the spliced editor and its components
  set E1 := e.remove_lines_at (F.row + 1) (S.row - (F.row + 1)) with hE1
  have h0 : (e.remove_selection F S).1 =
      (E1.merge_with_next_row F.row F.column S.column).1 := by
    unfold Editor.remove_selection
    rw [if_pos hgt]
  have h1 : E1.merge_with_next_row F.row F.column S.column =
      ({ E1 with
          canvas := E1.canvas.set F.row
            ((e.canvas.getD F.row []).take F.column ++
              ((e.canvas.getD S.row []).drop S.column).take
                (e.line_lens.getD S.row 0 - S.column) ++
              (e.canvas.getD F.row []).drop
                (F.column +
                  (((e.canvas.getD S.row []).drop S.column).take
                    (e.line_lens.getD S.row 0 - S.column)).length))
          line_lens := E1.line_lens.set F.row
            (F.column + (e.line_lens.getD S.row 0 - S.column)) }.remove_line_at
        (F.row + 1), true) := by
    unfold Editor.merge_with_next_row
    rw [if_neg hcond]
    simp only [hg2, hgc2, hgc1]
  have hta : E1.canvas.take F.row = e.canvas.take F.row := by
    rw [gc, List.take_append_eq_append_take, List.take_take]
    have hm1 : min F.row (F.row + 1) = F.row := by omega
    have hm2 : F.row - (e.canvas.take (F.row + 1)).length = 0 := by
      rw [htlen]
      omega
    rw [hm1, hm2, List.take_zero, List.append_nil]
  have hda : E1.canvas.drop (F.row + 1) = e.canvas.drop S.row := by
    rw [gc, List.drop_append_eq_append_drop]
    rw [List.drop_eq_nil_of_le (by rw [htlen])]
    have hm2 : F.row + 1 - (e.canvas.take (F.row + 1)).length = 0 := by
      rw [htlen]
      omega
    rw [hm2, List.drop_zero, List.nil_append]
  have htaL : E1.line_lens.take F.row = e.line_lens.take F.row := by
    rw [gl, List.take_append_eq_append_take, List.take_take]
    have hm1 : min F.row (F.row + 1) = F.row := by omega
    have hm2 : F.row - (e.line_lens.take (F.row + 1)).length = 0 := by
      rw [htlenL]
      omega
    rw [hm1, hm2, List.take_zero, List.append_nil]
  have hdaL : E1.line_lens.drop (F.row + 1) = e.line_lens.drop S.row := by
    rw [gl, List.drop_append_eq_append_drop]
    rw [List.drop_eq_nil_of_le (by rw [htlenL])]
    have hm2 : F.row + 1 - (e.line_lens.take (F.row + 1)).length = 0 := by
      rw [htlenL]
      omega
    rw [hm2, List.drop_zero, List.nil_append]
  have hE1clen : E1.canvas.length = F.row + 1 + (e.canvas.length - S.row) := by
    rw [gc]
    simp only [List.length_append, List.length_take, List.length_drop]
    omega
  have hE1llen : E1.line_lens.length =
      F.row + 1 + (e.line_lens.length - S.row) := by
    rw [gl]
    simp only [List.length_append, List.length_take, List.length_drop]
    omega
  -- the merged row and the sealed first-row length
  have hmerged : E1.canvas.set F.row
      ((e.canvas.getD F.row []).take F.column ++
        ((e.canvas.getD S.row []).drop S.column).take
          (e.line_lens.getD S.row 0 - S.column) ++
        (e.canvas.getD F.row []).drop
          (F.column +
            (((e.canvas.getD S.row []).drop S.column).take
              (e.line_lens.getD S.row 0 - S.column)).length)) =
      e.canvas.take F.row ++
        ((e.canvas.getD F.row []).take F.column ++
          ((e.canvas.getD S.row []).drop S.column).take
            (e.line_lens.getD S.row 0 - S.column) ++
          (e.canvas.getD F.row []).drop
            (F.column +
              (((e.canvas.getD S.row []).drop S.column).take
                (e.line_lens.getD S.row 0 - S.column)).length)) ::
          e.canvas.drop S.row := by
    rw [set_eq_take_append _ _ _ (by omega), hta, hda]
  have hmergedL : E1.line_lens.set F.row
      (F.column + (e.line_lens.getD S.row 0 - S.column)) =
      e.line_lens.take F.row ++
        (F.column + (e.line_lens.getD S.row 0 - S.column)) ::
          e.line_lens.drop S.row := by
    rw [set_eq_take_append _ _ _ (by omega), htaL, hdaL]
  set MG := (e.canvas.getD F.row []).take F.column ++
      ((e.canvas.getD S.row []).drop S.column).take
        (e.line_lens.getD S.row 0 - S.column) ++
      (e.canvas.getD F.row []).drop
        (F.column +
          (((e.canvas.getD S.row []).drop S.column).take
            (e.line_lens.getD S.row 0 - S.column)).length) with hMG
  set NL := F.column + (e.line_lens.getD S.row 0 - S.column) with hNL
  have hcv : (e.remove_selection F S).1.canvas =
      (e.canvas.take F.row ++ [MG]) ++ e.canvas.drop (S.row + 1) := by
    rw [h0, h1]
    show (E1.canvas.set F.row MG).take (F.row + 1) ++
        (E1.canvas.set F.row MG).drop (F.row + 2) = _
    rw [hmerged]
    exact splice_merge_form e.canvas F.row S.row MG (by omega)
  have hlv : (e.remove_selection F S).1.line_lens =
      (e.line_lens.take F.row ++ [NL]) ++ e.line_lens.drop (S.row + 1) := by
    rw [h0, h1]
    show (E1.line_lens.set F.row NL).take (F.row + 1) ++
        (E1.line_lens.set F.row NL).drop (F.row + 2) = _
    rw [hmergedL]
    exact splice_merge_form e.line_lens F.row S.row NL (by omega)
  have hr1len : (e.canvas.getD F.row []).length = e.max_line_len :=
    hwf2 _ (getD_mem _ _ _ hFc)
  have hr2len : (e.canvas.getD S.row []).length = e.max_line_len :=
    hwf2 _ (getD_mem _ _ _ hSc)
  refine ⟨?_, ?_, ?_, ?_, ?_⟩
  · rw [hlv]
    simp only [List.length_append, List.length_take, List.length_cons,
      List.length_nil, List.length_drop]
    omega
  · intro i hi
    rw [hcv, hlv]
    exact ⟨getD_merge_lt _ _ _ _ _ _ (by omega) hi,
      getD_merge_lt _ _ _ _ _ _ (by omega) hi⟩
  · unfold Editor.row_content
    rw [hcv, hlv, getD_merge_self _ _ _ _ _ (by omega),
      getD_merge_self _ _ _ _ _ (by omega), hMG, hNL]
    exact merged_row_take _ _ _ _ _ _ hcol1 (by omega) hcol2 (by omega)
  · rw [hlv]
    exact getD_merge_self _ _ _ _ _ (by omega)
  · intro i hi hic
    rw [hcv, hlv]
    rw [getD_merge_gt _ _ _ _ _ _ (by omega) hi,
      getD_merge_gt _ _ _ _ _ _ (by omega) hi]
    have hidx : S.row + 1 + (i - (F.row + 1)) = i + (S.row - F.row) := by omega
    rw [hidx]
    exact ⟨rfl, rfl⟩

/-- Shape of `remove_selection` between ordered in-bounds positions, under
the capacity side condition that makes the cross-row merge succeed: the rows
above the first edge are untouched, the first row becomes prefix ++ suffix,
the interior and second rows disappear, and the rows below shift up. -/
theorem remove_selection_shape (e : Editor) (F S : Pos)
    (hwf1 : e.canvas.length = e.line_lens.length)
    (hwf2 : ∀ r ∈ e.canvas, r.length = e.max_line_len)
    (hord : F.row < S.row ∨ (F.row = S.row ∧ F.column ≤ S.column))
    (hrow2 : S.row < e.line_lens.length)
    (hcol1 : F.column ≤ e.line_lens.getD F.row 0)
    (hcol2 : S.column ≤ e.line_lens.getD S.row 0)
    (hlenF : e.line_lens.getD F.row 0 ≤ e.max_line_len)
    (hlenS : e.line_lens.getD S.row 0 ≤ e.max_line_len)
    (hcap : F.row = S.row ∨
      e.line_lens.getD F.row 0 + e.line_lens.getD S.row 0 ≤ e.max_line_len) :
    (e.remove_selection F S).1.line_lens.length =
      e.line_lens.length - (S.row - F.row) ∧
    (∀ i, i < F.row →
      (e.remove_selection F S).1.canvas.getD i [] = e.canvas.getD i [] ∧
      (e.remove_selection F S).1.line_lens.getD i 0 = e.line_lens.getD i 0) ∧
    (e.remove_selection F S).1.row_content F.row =
      (e.row_content F.row).take F.column ++
        (e.row_content S.row).drop S.column ∧
    (e.remove_selection F S).1.line_lens.getD F.row 0 =
      F.column + (e.line_lens.getD S.row 0 - S.column) ∧
    (∀ i, F.row < i → i < (e.remove_selection F S).1.line_lens.length →
      (e.remove_selection F S).1.canvas.getD i [] =
        e.canvas.getD (i + (S.row - F.row)) [] ∧
      (e.remove_selection F S).1.line_lens.getD i 0 =
        e.line_lens.getD (i + (S.row - F.row)) 0) := by
  rcases hord with hlt | ⟨heq, hle⟩
  · exact remove_selection_shape_multi e F S hwf1 hwf2 hlt hrow2 hcol1 hcol2 hlenF hlenS hcap
  · -- same-row removal
    have hngt : ¬ S.row > F.row := by omega
    have hFn : F.row < e.line_lens.length := by omega
    have hFc : F.row < e.canvas.length := by omega
    have hrlen : (e.canvas.getD F.row []).length = e.max_line_len :=
      hwf2 _ (getD_mem _ _ _ hFc)
    have hres : (e.remove_selection F S).1 =
        { e with
          canvas := e.canvas.set F.row
            (copy_within (e.canvas.getD F.row []) S.column
              (e.canvas.getD F.row []).length F.column)
          line_lens := e.line_lens.set F.row
            (e.line_lens.getD F.row 0 - (S.column - F.column)) } := by
      unfold Editor.remove_selection
      rw [if_neg hngt]
    rw [hres]
    have hd0 : S.row - F.row = 0 := by omega
    refine ⟨?_, ?_, ?_, ?_, ?_⟩
    · simp only [List.length_set, hd0, Nat.sub_zero]
    · intro i hi
      exact ⟨getD_set_ne _ _ _ _ _ (by omega),
        getD_set_ne _ _ _ _ _ (by omega)⟩
    · show ((e.canvas.set F.row _).getD F.row []).take
        ((e.line_lens.set F.row _).getD F.row 0) = _
      rw [getD_set_self _ _ _ _ hFc, getD_set_self _ _ _ _ hFn]
      unfold Editor.row_content
      have hcS' : S.column ≤ e.line_lens.getD F.row 0 := by
        rw [heq]
        exact hcol2
      rw [same_row_take _ _ _ _ hle hcS' (by omega)]
      rw [heq]
    · rw [getD_set_self _ _ _ _ hFn]
      have hcS' : S.column ≤ e.line_lens.getD F.row 0 := by
        rw [heq]
        exact hcol2
      rw [heq]
      omega
    · intro i hi hic
      rw [hd0, Nat.add_zero]
      exact ⟨getD_set_ne _ _ _ _ _ (by omega),
        getD_set_ne _ _ _ _ _ (by omega)⟩

/-- Capacity-1 editor with two full rows "a" / "b" and the everything
selection (0,0)-(1,1). -/
def c1_editor : Editor :=
  { selection := Selection.range { row := 0, column := 0 } { row := 1, column := 1 }
    last_column_index := 0
    next_blink_at := 0
    show_cursor := false
    max_line_len := 1
    line_lens := [1, 1]
    canvas := [['a'], ['b']] }

/-- C1 counterexample: deleting the in-bounds range (0,0)-(1,1) in the
capacity-1 editor should leave a single empty row per the claim, but the
inner `merge_with_next_row` fails (1 + 1 > 1) and nothing is deleted: both
rows survive with length 1. -/
theorem C1_counterexample :
    (c1_editor.handle_input InputKey.Del InputModifiers.none).line_len 0 = 1 ∧
    (1 : Nat) ≠ 0 ∧
    (c1_editor.handle_input InputKey.Del InputModifiers.none).line_count = 2 ∧
    (2 : Nat) ≠ 1 := by
  refine ⟨by decide, by decide, by decide, by decide⟩

/-- The C1 property at one editor and modifier state: handling Delete on a
range selection collapses the caret to the range's first edge, joins the
prefix of the first row with the visible suffix of the last row, removes the
interior rows, and shifts the rows below up. -/
def delete_selection_spec (e : Editor) (m : InputModifiers) : Prop :=
  (e.handle_input InputKey.Del m).selection =
    Selection.from_pos e.selection.get_first ∧
  (e.handle_input InputKey.Del m).line_count =
    e.line_count - (e.selection.get_second.row - e.selection.get_first.row) ∧
  (∀ i, i < e.selection.get_first.row →
    (e.handle_input InputKey.Del m).row_content i = e.row_content i ∧
    (e.handle_input InputKey.Del m).line_len i = e.line_len i) ∧
  (e.handle_input InputKey.Del m).row_content e.selection.get_first.row =
    (e.row_content e.selection.get_first.row).take
      e.selection.get_first.column ++
    (e.row_content e.selection.get_second.row).drop
      e.selection.get_second.column ∧
  (e.handle_input InputKey.Del m).line_len e.selection.get_first.row =
    e.selection.get_first.column +
      (e.line_len e.selection.get_second.row -
        e.selection.get_second.column) ∧
  (∀ i, e.selection.get_first.row < i →
    i < (e.handle_input InputKey.Del m).line_count →
    (e.handle_input InputKey.Del m).row_content i =
      e.row_content
        (i + (e.selection.get_second.row - e.selection.get_first.row)) ∧
    (e.handle_input InputKey.Del m).line_len i =
      e.line_len
        (i + (e.selection.get_second.row - e.selection.get_first.row)))

/-- C1 amended: Delete on a range selection over in-bounds, document-ordered
edges removes exactly the selected text and collapses the caret to the first
edge, provided (the amendment) that for a cross-row range the two rows'
current lengths together fit in `max_line_len`; otherwise the inner merge
fails and the text survives (see `C1_counterexample`). -/
theorem C1_delete_range_selection (e : Editor) (m : InputModifiers) (en : Pos)
    (hwf : e.wf) (hsel : e.selection.endp = some en)
    (hord : e.selection.get_first.row < e.selection.get_second.row ∨
      (e.selection.get_first.row = e.selection.get_second.row ∧
        e.selection.get_first.column ≤ e.selection.get_second.column))
    (hrow2 : e.selection.get_second.row < e.line_count)
    (hcol1 : e.selection.get_first.column ≤
      e.line_len e.selection.get_first.row)
    (hcol2 : e.selection.get_second.column ≤
      e.line_len e.selection.get_second.row)
    (hcap : e.selection.get_first.row = e.selection.get_second.row ∨
      e.line_len e.selection.get_first.row +
        e.line_len e.selection.get_second.row ≤ e.max_line_len) :
    delete_selection_spec e m := by
  obtain ⟨hwf1, hwf2, hwf3⟩ := hwf
  have hrow2L : e.selection.get_second.row < e.line_lens.length := hrow2
  have hFrowL : e.selection.get_first.row < e.line_lens.length := by
    rcases hord with h | ⟨h, _⟩ <;> omega
  have hlenF : e.line_lens.getD e.selection.get_first.row 0 ≤ e.max_line_len :=
    hwf3 _ (getD_mem _ _ _ hFrowL)
  have hlenS : e.line_lens.getD e.selection.get_second.row 0 ≤ e.max_line_len :=
    hwf3 _ (getD_mem _ _ _ hrow2L)
  obtain ⟨g1, g2, g3, g4, g5⟩ :=
    remove_selection_shape e e.selection.get_first e.selection.get_second hwf1
      hwf2 hord hrow2L hcol1 hcol2 hlenF hlenS hcap
  have hdel : e.handle_input InputKey.Del m =
      { (e.remove_selection e.selection.get_first e.selection.get_second).1 with
        selection := Selection.from_pos e.selection.get_first } := by
    simp only [Editor.handle_input, hsel]
  unfold delete_selection_spec
  rw [hdel]
  refine ⟨rfl, g1, ?_, g3, g4, ?_⟩
  · intro i hi
    obtain ⟨hc, hl⟩ := g2 i hi
    constructor
    · show ((e.remove_selection e.selection.get_first
          e.selection.get_second).1.canvas.getD i []).take
        ((e.remove_selection e.selection.get_first
          e.selection.get_second).1.line_lens.getD i 0) = _
      rw [hc, hl]
      rfl
    · exact hl
  · intro i hi hic
    obtain ⟨hc, hl⟩ := g5 i hi hic
    constructor
    · show ((e.remove_selection e.selection.get_first
          e.selection.get_second).1.canvas.getD i []).take
        ((e.remove_selection e.selection.get_first
          e.selection.get_second).1.line_lens.getD i 0) = _
      rw [hc, hl]
      rfl
    · exact hl

/-- Editor with rows "ab" / "cd" at capacity 4 and the range selection
(0,1)-(1,1), whose deletion merges to "ad". -/
def c1_witness_editor : Editor :=
  { selection := Selection.range { row := 0, column := 1 } { row := 1, column := 1 }
    last_column_index := 0
    next_blink_at := 0
    show_cursor := false
    max_line_len := 4
    line_lens := [2, 2]
    canvas := [['a', 'b', ' ', ' '], ['c', 'd', ' ', ' ']] }

/-- Witness for the amended C1 at a concrete cross-row deletion that fits
within capacity. -/
theorem C1_witness :
    delete_selection_spec c1_witness_editor InputModifiers.none :=
  C1_delete_range_selection c1_witness_editor InputModifiers.none
    { row := 1, column := 1 } (by unfold Editor.wf; decide) (by decide)
    (by decide) (by decide) (by decide) (by decide) (by decide)

/-! ### The content round trip (C2) -/

theorem set_getD_self {α : Type _} (l : List α) :
    ∀ (i : Nat) (d : α), i < l.length → l.set i (l.getD i d) = l := by
  induction l with
  | nil => intro i d h; simp at h
  | cons x t ih =>
    intro i d h
    cases i with
    | zero => simp
    | succ i =>
      simp only [List.set_cons_succ, List.getD_cons_succ]
      rw [ih i d (by simpa using Nat.lt_of_succ_lt_succ h)]

theorem set_take_succ {α : Type _} (l : List α) (i : Nat) (a : α)
    (h : i < l.length) : (l.set i a).take (i + 1) = l.take i ++ [a] := by
  rw [set_eq_take_append l i a h, List.take_append_eq_append_take,
    List.take_take]
  have hm1 : min (i + 1) i = i := by omega
  have hm2 : i + 1 - (l.take i).length = 1 := by rw [List.length_take]; omega
  rw [hm1, hm2]
  rfl

theorem set_drop_of_lt {α : Type _} (l : List α) :
    ∀ (i j : Nat) (a : α), i < j → (l.set i a).drop j = l.drop j := by
  induction l with
  | nil => intro i j a _; simp
  | cons x t ih =>
    intro i j a hij
    cases i with
    | zero =>
      cases j with
      | zero => omega
      | succ j => simp
    | succ i =>
      cases j with
      | zero => omega
      | succ j =>
        simp only [List.set_cons_succ, List.drop_succ_cons]
        exact ih i j a (by omega)

theorem splice_in_take {α : Type _} (l : List α) (i : Nat) (a : α)
    (hi : i ≤ l.length) :
    (l.take i ++ [a] ++ l.drop i).take i = l.take i := by
  rw [List.append_assoc, List.take_append_eq_append_take, List.take_take]
  have hm1 : min i i = i := Nat.min_self i
  have hm2 : i - (l.take i).length = 0 := by rw [List.length_take]; omega
  rw [hm1, hm2, List.take_zero, List.append_nil]

theorem splice_in_drop {α : Type _} (l : List α) (i : Nat) (a : α)
    (hi : i ≤ l.length) :
    (l.take i ++ [a] ++ l.drop i).drop (i + 1) = l.drop i := by
  rw [List.append_assoc, List.drop_append_eq_append_drop]
  rw [List.drop_eq_nil_of_le (by rw [List.length_take]; omega)]
  have hm2 : i + 1 - (l.take i).length = 1 := by rw [List.length_take]; omega
  rw [hm2, List.nil_append]
  rfl

/-- The accumulated effect of the consecutive `set_char` cell writes that
`insert_at` performs while copying one line into a row chunk. -/
def overwrite (row : List Char) (col : Nat) : List Char → List Char
  | [] => row
  | c :: cs => overwrite (row.set col c) (col + 1) cs

theorem overwrite_length (cs : List Char) :
    ∀ (row : List Char) (col : Nat),
      (overwrite row col cs).length = row.length := by
  induction cs with
  | nil => intro row col; rfl
  | cons c cs ih =>
    intro row col
    show (overwrite (row.set col c) (col + 1) cs).length = _
    rw [ih, List.length_set]

theorem overwrite_eq_take_append (cs : List Char) :
    ∀ (row : List Char) (col : Nat), col + cs.length ≤ row.length →
      overwrite row col cs = row.take col ++ cs ++ row.drop (col + cs.length) := by
  induction cs with
  | nil =>
    intro row col h
    show row = _
    simp only [List.length_nil, Nat.add_zero, List.append_nil,
      List.take_append_drop]
  | cons c cs ih =>
    intro row col h
    have hcol : col < row.length := by
      simp only [List.length_cons] at h
      omega
    show overwrite (row.set col c) (col + 1) cs = _
    rw [ih (row.set col c) (col + 1)
      (by rw [List.length_set]; simp only [List.length_cons] at h; omega)]
    rw [set_take_succ row col c hcol, set_drop_of_lt row col _ c (by omega)]
    rw [List.append_assoc (row.take col) [c] cs, List.singleton_append]
    have hidx : col + 1 + cs.length = col + (c :: cs).length := by
      simp only [List.length_cons]
      omega
    rw [hidx]

/-- Writing one plain line (no `'\n'`/`'\r'`, fitting in the remaining
capacity) through `insert_at_loop` is exactly an `overwrite` of the current
row chunk, after which the loop continues at the advanced column. -/
theorem insert_at_loop_write_row (l : List Char) :
    ∀ (f : Editor) (rest : List Char) (r col : Nat),
      r < f.line_count →
      col + l.length ≤ f.max_line_len →
      (∀ c ∈ l, c ≠ '\n' ∧ c ≠ '\r') →
      f.insert_at_loop (l ++ rest) r col =
        ({ f with
            canvas :=
              f.canvas.set r
                (overwrite (f.canvas.getD r []) col l) }).insert_at_loop
          rest r (col + l.length) := by
  induction l with
  | nil =>
    intro f rest r col h1 h3 h4
    show f.insert_at_loop rest r col = _
    simp only [overwrite]
    by_cases hrc : r < f.canvas.length
    · rw [set_getD_self f.canvas r [] hrc]
      rfl
    · rw [List.set_eq_of_length_le (by omega)]
      rfl
  | cons c cs ih =>
    intro f rest r col h1 h3 h4
    have hc1 : ¬ c = '\r' := (h4 c (List.mem_cons_self c cs)).2
    have hc2 : ¬ c = '\n' := (h4 c (List.mem_cons_self c cs)).1
    have hc3 : ¬ col = f.max_line_len := by
      simp only [List.length_cons] at h3
      omega
    show f.insert_at_loop (c :: (cs ++ rest)) r col = _
    simp only [Editor.insert_at_loop, if_neg hc1, if_neg hc2, if_neg hc3]
    rw [set_char_of_lt f r col c h1]
    rw [ih ({ f with
        canvas := f.canvas.set r ((f.canvas.getD r []).set col c) }) rest r
      (col + 1) h1
      (by show col + 1 + cs.length ≤ f.max_line_len
          simp only [List.length_cons] at h3
          omega)
      (fun x hx => h4 x (List.mem_cons_of_mem c hx))]
    show ({ f with
        canvas := (f.canvas.set r ((f.canvas.getD r []).set col c)).set r
          (overwrite ((f.canvas.set r
            ((f.canvas.getD r []).set col c)).getD r []) (col + 1) cs)
        } : Editor).insert_at_loop rest r (col + 1 + cs.length) = _
    have hidx : col + 1 + cs.length = col + (c :: cs).length := by
      simp only [List.length_cons]
      omega
    rw [hidx, List.set_set]
    by_cases hrc : r < f.canvas.length
    · rw [getD_set_self f.canvas r ((f.canvas.getD r []).set col c) [] hrc]
      rfl
    · simp only [List.set_eq_of_length_le
        (show f.canvas.length ≤ r by omega)]

/-- The row serialization `get_content` produces: every visible row followed
by a newline. -/
def serialize_rows (rows : List (List Char)) : List Char :=
  (rows.map (fun line => line ++ ['\n'])).flatten

theorem get_content_eq_serialize (e : Editor) :
    e.get_content = serialize_rows e.lines := rfl

/-- The canvas `insert_at` leaves behind when fed `serialize_rows rows` into
a row whose chunk is `cur`: each row written over `cur` or over a fresh zero
chunk, plus the trailing empty row the final newline opens. -/
def ins_spec_canvas (cur : List Char) (max_line_len : Nat) :
    List (List Char) → List (List Char)
  | [] => [cur]
  | row0 :: rest =>
    overwrite cur 0 row0 ::
      ins_spec_canvas (zero_row max_line_len) max_line_len rest

/-- The row lengths matching `ins_spec_canvas`. -/
def ins_spec_lens : List (List Char) → List Nat
  | [] => [0]
  | row0 :: rest => row0.length :: ins_spec_lens rest

/-- Feeding a serialized row list into `insert_at_loop` writes exactly those
rows (plus one trailing empty row) in place of the starting row. -/
theorem insert_at_loop_serialize (rows : List (List Char)) :
    ∀ (f : Editor) (r : Nat),
      r < f.line_count →
      f.canvas.length = f.line_lens.length →
      (∀ l ∈ rows, l.length ≤ f.max_line_len ∧
        ∀ c ∈ l, c ≠ '\n' ∧ c ≠ '\r') →
      (f.insert_at_loop (serialize_rows rows) r 0).1.canvas =
          f.canvas.take r ++
            ins_spec_canvas (f.canvas.getD r []) f.max_line_len rows ++
            f.canvas.drop (r + 1) ∧
      (f.insert_at_loop (serialize_rows rows) r 0).1.line_lens =
          f.line_lens.take r ++ ins_spec_lens rows ++
            f.line_lens.drop (r + 1) ∧
      (f.insert_at_loop (serialize_rows rows) r 0).2 =
          Pos.from_row_column (r + rows.length) 0 := by
  induction rows with
  | nil =>
    intro f r h1 h2 h4
    have hrc : r < f.canvas.length := by
      rw [h2]
      exact h1
    refine ⟨?_, ?_, rfl⟩
    · show f.canvas =
        f.canvas.take r ++ [f.canvas.getD r []] ++ f.canvas.drop (r + 1)
      rw [List.append_assoc, List.singleton_append]
      exact eq_take_getD_drop f.canvas r [] hrc
    · show f.line_lens.set r 0 =
        f.line_lens.take r ++ [0] ++ f.line_lens.drop (r + 1)
      rw [List.append_assoc, List.singleton_append]
      exact set_eq_take_append f.line_lens r 0 h1
  | cons row0 rest ih =>
    intro f r h1 h2 h4
    have hrow0 := h4 row0 (List.mem_cons_self row0 rest)
    have hrc : r < f.canvas.length := by
      rw [h2]
      exact h1
    have hser : serialize_rows (row0 :: rest) =
        row0 ++ ('\n' :: serialize_rows rest) := by
      show ((row0 ++ ['\n']) :: rest.map (fun line => line ++ ['\n'])).flatten = _
      rw [List.flatten_cons, List.append_assoc, List.singleton_append]
      rfl
    rw [hser]
    rw [insert_at_loop_write_row row0 f ('\n' :: serialize_rows rest) r 0 h1
      (by rw [Nat.zero_add]; exact hrow0.1) hrow0.2]
    rw [Nat.zero_add row0.length]
    have hstep : ({ f with
        canvas := f.canvas.set r
          (overwrite (f.canvas.getD r []) 0 row0) } : Editor).insert_at_loop
          ('\n' :: serialize_rows rest) r row0.length =
        (({ f with
            canvas := f.canvas.set r (overwrite (f.canvas.getD r []) 0 row0)
            line_lens := f.line_lens.set r row0.length } : Editor).insert_line_at
          (r + 1)).insert_at_loop (serialize_rows rest) (r + 1) 0 := rfl
    rw [hstep]
    have hYlen : (f.line_lens.set r row0.length).length = f.line_lens.length :=
      List.length_set _ _ _
    have hZlen : (f.canvas.set r
        (overwrite (f.canvas.getD r []) 0 row0)).length = f.canvas.length :=
      List.length_set _ _ _
    have hYb : r + 1 ≤ (f.line_lens.set r row0.length).length := by
      rw [hYlen]
      omega
    have hZb : r + 1 ≤ (f.canvas.set r
        (overwrite (f.canvas.getD r []) 0 row0)).length := by
      rw [hZlen]
      omega
    have hcvE : ((({ f with
        canvas := f.canvas.set r (overwrite (f.canvas.getD r []) 0 row0)
        line_lens := f.line_lens.set r row0.length } : Editor).insert_line_at
          (r + 1))).canvas =
        (f.canvas.set r (overwrite (f.canvas.getD r []) 0 row0)).take (r + 1)
          ++ [zero_row f.max_line_len] ++
          (f.canvas.set r (overwrite (f.canvas.getD r []) 0 row0)).drop
            (r + 1) := rfl
    have hlnE : ((({ f with
        canvas := f.canvas.set r (overwrite (f.canvas.getD r []) 0 row0)
        line_lens := f.line_lens.set r row0.length } : Editor).insert_line_at
          (r + 1))).line_lens =
        (f.line_lens.set r row0.length).take (r + 1) ++ [0] ++
          (f.line_lens.set r row0.length).drop (r + 1) := rfl
    have hh1 : r + 1 < ((({ f with
        canvas := f.canvas.set r (overwrite (f.canvas.getD r []) 0 row0)
        line_lens := f.line_lens.set r row0.length } : Editor).insert_line_at
          (r + 1))).line_count := by
      unfold Editor.line_count
      rw [hlnE, length_splice_in (f.line_lens.set r row0.length) (r + 1) 0 hYb,
        hYlen]
      omega
    have hh2 : ((({ f with
        canvas := f.canvas.set r (overwrite (f.canvas.getD r []) 0 row0)
        line_lens := f.line_lens.set r row0.length } : Editor).insert_line_at
          (r + 1))).canvas.length =
        ((({ f with
        canvas := f.canvas.set r (overwrite (f.canvas.getD r []) 0 row0)
        line_lens := f.line_lens.set r row0.length } : Editor).insert_line_at
          (r + 1))).line_lens.length := by
      rw [hcvE, hlnE,
        length_splice_in (f.canvas.set r
          (overwrite (f.canvas.getD r []) 0 row0)) (r + 1)
          (zero_row f.max_line_len) hZb,
        length_splice_in (f.line_lens.set r row0.length) (r + 1) 0 hYb,
        hZlen, hYlen, h2]
    obtain ⟨g1, g2, g3⟩ := ih (({ f with
        canvas := f.canvas.set r (overwrite (f.canvas.getD r []) 0 row0)
        line_lens := f.line_lens.set r row0.length } : Editor).insert_line_at
          (r + 1)) (r + 1) hh1 hh2
      (fun l hl => h4 l (List.mem_cons_of_mem row0 hl))
    refine ⟨?_, ?_, ?_⟩
    · rw [g1]
      have htk : ((({ f with
          canvas := f.canvas.set r (overwrite (f.canvas.getD r []) 0 row0)
          line_lens := f.line_lens.set r row0.length } : Editor).insert_line_at
            (r + 1))).canvas.take (r + 1) =
          f.canvas.take r ++ [overwrite (f.canvas.getD r []) 0 row0] := by
        rw [hcvE, splice_in_take (f.canvas.set r
          (overwrite (f.canvas.getD r []) 0 row0)) (r + 1)
          (zero_row f.max_line_len) hZb]
        exact set_take_succ f.canvas r _ hrc
      have hgz : ((({ f with
          canvas := f.canvas.set r (overwrite (f.canvas.getD r []) 0 row0)
          line_lens := f.line_lens.set r row0.length } : Editor).insert_line_at
            (r + 1))).canvas.getD (r + 1) [] = zero_row f.max_line_len := by
        rw [hcvE]
        exact getD_splice_in_self (f.canvas.set r
          (overwrite (f.canvas.getD r []) 0 row0)) (r + 1)
          (zero_row f.max_line_len) [] hZb
      have hdr : ((({ f with
          canvas := f.canvas.set r (overwrite (f.canvas.getD r []) 0 row0)
          line_lens := f.line_lens.set r row0.length } : Editor).insert_line_at
            (r + 1))).canvas.drop (r + 1 + 1) = f.canvas.drop (r + 1) := by
        rw [hcvE, splice_in_drop (f.canvas.set r
          (overwrite (f.canvas.getD r []) 0 row0)) (r + 1)
          (zero_row f.max_line_len) hZb]
        exact set_drop_of_lt f.canvas r (r + 1) _ (by omega)
      rw [htk, hgz, hdr]
      have hmx : ((({ f with
          canvas := f.canvas.set r (overwrite (f.canvas.getD r []) 0 row0)
          line_lens := f.line_lens.set r row0.length } : Editor).insert_line_at
            (r + 1))).max_line_len = f.max_line_len := rfl
      rw [hmx]
      simp only [List.append_assoc, List.singleton_append, List.cons_append,
        List.nil_append, ins_spec_canvas]
    · rw [g2]
      have htkL : ((({ f with
          canvas := f.canvas.set r (overwrite (f.canvas.getD r []) 0 row0)
          line_lens := f.line_lens.set r row0.length } : Editor).insert_line_at
            (r + 1))).line_lens.take (r + 1) =
          f.line_lens.take r ++ [row0.length] := by
        rw [hlnE, splice_in_take (f.line_lens.set r row0.length) (r + 1) 0 hYb]
        exact set_take_succ f.line_lens r _ h1
      have hdrL : ((({ f with
          canvas := f.canvas.set r (overwrite (f.canvas.getD r []) 0 row0)
          line_lens := f.line_lens.set r row0.length } : Editor).insert_line_at
            (r + 1))).line_lens.drop (r + 1 + 1) =
          f.line_lens.drop (r + 1) := by
        rw [hlnE, splice_in_drop (f.line_lens.set r row0.length) (r + 1) 0 hYb]
        exact set_drop_of_lt f.line_lens r (r + 1) _ (by omega)
      rw [htkL, hdrL]
      simp only [List.append_assoc, List.singleton_append, List.cons_append,
        List.nil_append, ins_spec_lens]
    · rw [g3]
      have hidx : r + 1 + rest.length = r + (row0 :: rest).length := by
        simp only [List.length_cons]
        omega
      rw [hidx]

theorem ins_spec_lens_length (rows : List (List Char)) :
    (ins_spec_lens rows).length = rows.length + 1 := by
  induction rows with
  | nil => rfl
  | cons r t ih =>
    show (ins_spec_lens t).length + 1 = _
    rw [ih]
    rfl

theorem ins_spec_lens_getD_lt (rows : List (List Char)) :
    ∀ i, i < rows.length →
      (ins_spec_lens rows).getD i 0 = (rows.getD i []).length := by
  induction rows with
  | nil => intro i hi; simp at hi
  | cons r t ih =>
    intro i hi
    cases i with
    | zero => rfl
    | succ i =>
      show (ins_spec_lens t).getD i 0 = _
      exact ih i (by simpa using Nat.lt_of_succ_lt_succ hi)

theorem ins_spec_lens_getD_last (rows : List (List Char)) :
    (ins_spec_lens rows).getD rows.length 0 = 0 := by
  induction rows with
  | nil => rfl
  | cons r t ih => exact ih

theorem ins_spec_content (rows : List (List Char)) (m : Nat) :
    ∀ (cur : List Char) (i : Nat), cur.length = m → i < rows.length →
      (∀ l ∈ rows, l.length ≤ m) →
      ((ins_spec_canvas cur m rows).getD i []).take
        ((ins_spec_lens rows).getD i 0) = rows.getD i [] := by
  induction rows with
  | nil => intro cur i _ hi _; simp at hi
  | cons row0 rest ih =>
    intro cur i hcur hi hlen
    cases i with
    | zero =>
      show (overwrite cur 0 row0).take row0.length = row0
      rw [overwrite_eq_take_append row0 cur 0
        (by rw [hcur]; simpa using hlen row0 (List.mem_cons_self row0 rest))]
      simp only [List.take_zero, List.nil_append, Nat.zero_add]
      rw [List.take_append_eq_append_take,
        List.take_of_length_le (Nat.le_refl row0.length), Nat.sub_self,
        List.take_zero, List.append_nil]
    | succ i =>
      show ((ins_spec_canvas (zero_row m) m rest).getD i []).take
        ((ins_spec_lens rest).getD i 0) = rest.getD i []
      exact ih (zero_row m) i (List.length_replicate m (Char.ofNat 0))
        (by simpa using Nat.lt_of_succ_lt_succ hi)
        (fun l hl => hlen l (List.mem_cons_of_mem row0 hl))

theorem zip_map_take_getD (A : List (List Char)) :
    ∀ (B : List Nat) (i : Nat), A.length = B.length → i < B.length →
      ((A.zip B).map (fun p => p.1.take p.2)).getD i [] =
        (A.getD i []).take (B.getD i 0) := by
  induction A with
  | nil =>
    intro B i h hi
    rw [← h] at hi
    simp at hi
  | cons a t ih =>
    intro B i h hi
    cases B with
    | nil => simp at hi
    | cons b tb =>
      cases i with
      | zero => rfl
      | succ i =>
        show ((t.zip tb).map (fun p => p.1.take p.2)).getD i [] = _
        exact ih tb i (by simpa using h) (by simpa using Nat.lt_of_succ_lt_succ hi)

theorem lines_length (e : Editor) (h : e.canvas.length = e.line_lens.length) :
    e.lines.length = e.line_lens.length := by
  unfold Editor.lines
  rw [List.length_map, List.length_zip, h, Nat.min_self]

theorem lines_getD (e : Editor) (h : e.canvas.length = e.line_lens.length)
    (i : Nat) (hi : i < e.line_lens.length) :
    e.lines.getD i [] = e.row_content i :=
  zip_map_take_getD e.canvas e.line_lens i h hi

theorem row_content_length (e : Editor)
    (hwf2 : ∀ r ∈ e.canvas, r.length = e.max_line_len)
    (hwf3 : ∀ n ∈ e.line_lens, n ≤ e.max_line_len)
    (hc : e.canvas.length = e.line_lens.length)
    (i : Nat) (hi : i < e.line_lens.length) :
    (e.row_content i).length = e.line_lens.getD i 0 := by
  unfold Editor.row_content
  rw [List.length_take]
  have h1 : (e.canvas.getD i []).length = e.max_line_len :=
    hwf2 _ (getD_mem _ _ _ (by omega))
  have h2 : e.line_lens.getD i 0 ≤ e.max_line_len :=
    hwf3 _ (getD_mem _ _ _ hi)
  omega

/-- C2 counterexample: the round trip on a fresh capacity-5 editor (one
empty row) yields two rows, not one — `set_content` does not strip the
trailing newline `get_content` appends, so each round trip adds one empty
row. -/
theorem C2_counterexample :
    ((Editor.new 5).set_content (Editor.new 5).get_content).line_count = 2 ∧
    (Editor.new 5).line_count = 1 ∧ (2 : Nat) ≠ 1 := by
  refine ⟨by decide, by decide, by decide⟩

/-- The C2 property at one editor: `get_content` then `set_content` on a
fresh editor of the same capacity reproduces every row of the original, with
contents and lengths identical, followed by exactly one extra empty row. -/
def round_trip_spec (e : Editor) : Prop :=
  ((Editor.new e.max_line_len).set_content e.get_content).line_count =
    e.line_count + 1 ∧
  (∀ i, i < e.line_count →
    ((Editor.new e.max_line_len).set_content e.get_content).row_content i =
      e.row_content i ∧
    ((Editor.new e.max_line_len).set_content e.get_content).line_len i =
      e.line_len i) ∧
  ((Editor.new e.max_line_len).set_content e.get_content).line_len
    e.line_count = 0

/-- C2 amended: for every well-formed editor whose visible rows contain no
`'\n'` or `'\r'`, the round trip reproduces all rows and appends one extra
empty row (the trailing-newline framing is re-parsed as an extra row, so it
is not stable: each application grows the document by one empty row). -/
theorem C2_content_round_trip (e : Editor) (hwf : e.wf)
    (hclean : ∀ l ∈ e.lines, ∀ c ∈ l, c ≠ '\n' ∧ c ≠ '\r') :
    round_trip_spec e := by
  obtain ⟨hwf1, hwf2, hwf3⟩ := hwf
  have hrows_len : ∀ l ∈ e.lines, l.length ≤ e.max_line_len := by
    intro l hl
    unfold Editor.lines at hl
    obtain ⟨p, hp, hlp⟩ := List.mem_map.mp hl
    have hmem := (List.of_mem_zip hp).1
    have h1 : p.1.length = e.max_line_len := hwf2 p.1 hmem
    rw [← hlp, ← h1, List.length_take]
    omega
  have hsc : (Editor.new e.max_line_len).set_content e.get_content =
      ((((Editor.new e.max_line_len).clear).set_cursor_pos 0 0).insert_at_loop
        (serialize_rows e.lines) 0 0).1 := by
    unfold Editor.set_content Editor.insert_at
    rw [get_content_eq_serialize]
  have hf0lens : ((((Editor.new e.max_line_len).clear).set_cursor_pos
      0 0)).line_lens = [0] := rfl
  have hf0canvas : ((((Editor.new e.max_line_len).clear).set_cursor_pos
      0 0)).canvas = [zero_row e.max_line_len] := rfl
  obtain ⟨g1, g2, g3⟩ :=
    insert_at_loop_serialize e.lines
      (((Editor.new e.max_line_len).clear).set_cursor_pos 0 0) 0
      (by show 0 < (1 : Nat); omega) rfl
      (fun l hl => ⟨hrows_len l hl, hclean l hl⟩)
  have hlenrows : e.lines.length = e.line_count := lines_length e hwf1
  have hcanvas2 : ((((Editor.new e.max_line_len).clear).set_cursor_pos
      0 0).insert_at_loop (serialize_rows e.lines) 0 0).1.canvas =
      ins_spec_canvas (zero_row e.max_line_len) e.max_line_len e.lines := by
    rw [g1, hf0canvas]
    show [] ++ ins_spec_canvas (zero_row e.max_line_len) e.max_line_len e.lines
      ++ [] = _
    rw [List.nil_append, List.append_nil]
  have hlens2 : ((((Editor.new e.max_line_len).clear).set_cursor_pos
      0 0).insert_at_loop (serialize_rows e.lines) 0 0).1.line_lens =
      ins_spec_lens e.lines := by
    rw [g2, hf0lens]
    show [] ++ ins_spec_lens e.lines ++ [] = _
    rw [List.nil_append, List.append_nil]
  refine ⟨?_, ?_, ?_⟩
  · rw [hsc]
    show ((((Editor.new e.max_line_len).clear).set_cursor_pos
      0 0).insert_at_loop (serialize_rows e.lines) 0 0).1.line_lens.length = _
    rw [hlens2, ins_spec_lens_length, hlenrows]
  · intro i hi
    have hiL : i < e.line_lens.length := hi
    constructor
    · rw [hsc]
      show (((((Editor.new e.max_line_len).clear).set_cursor_pos
          0 0).insert_at_loop (serialize_rows e.lines) 0 0).1.canvas.getD i
          []).take
        (((((Editor.new e.max_line_len).clear).set_cursor_pos
          0 0).insert_at_loop (serialize_rows e.lines) 0 0).1.line_lens.getD i
          0) = e.row_content i
      rw [hcanvas2, hlens2]
      rw [ins_spec_content e.lines e.max_line_len (zero_row e.max_line_len) i
        (List.length_replicate _ _) (by omega) hrows_len]
      exact lines_getD e hwf1 i hiL
    · rw [hsc]
      show ((((Editor.new e.max_line_len).clear).set_cursor_pos
          0 0).insert_at_loop (serialize_rows e.lines) 0 0).1.line_lens.getD i
          0 = e.line_lens.getD i 0
      rw [hlens2, ins_spec_lens_getD_lt e.lines i (by omega)]
      rw [lines_getD e hwf1 i hiL]
      exact row_content_length e hwf2 hwf3 hwf1 i hiL
  · rw [hsc]
    show ((((Editor.new e.max_line_len).clear).set_cursor_pos
        0 0).insert_at_loop (serialize_rows e.lines) 0 0).1.line_lens.getD
        e.line_count 0 = 0
    rw [hlens2, ← hlenrows]
    exact ins_spec_lens_getD_last e.lines

/-- Witness for the amended C2 at a concrete two-line editor. -/
theorem C2_witness :
    round_trip_spec ((Editor.new 4).set_content ("ab\ncd").toList) :=
  C2_content_round_trip ((Editor.new 4).set_content ("ab\ncd").toList)
    (by unfold Editor.wf; decide) (by decide)
